import Mathlib

/-!
# Verification of the Indra MVP core (BeeScript / Credits)

Shallow embedding of the budget-constrained task-graph engine:

* `src/indra/credits.py` — the credit ledger (`CreditManager` and the
  cost-estimation helpers);
* `src/indra/beescript.py` — the BeeScript data model, validator
  (`BeeScriptValidator`), and executor (`BeeScriptExecutor`).

Modelling conventions:

* Python `int` is modelled as `Int` (arbitrary precision, signed).
* Python dictionaries that are keyed by strings are modelled as association
  lists in insertion order; a dict lookup takes the *last* binding for a key
  (later assignments override), and dict iteration follows first-insertion
  order of keys.
* In-place mutation of objects is modelled by explicit state passing: each
  method that mutates returns the updated state.
* `raise ValueError(...)` is modelled with `Except String`; a call that
  raises makes no state change (in the source every `raise` happens before
  any mutation).
* Wall-clock fields (`timestamp`, `created_at`, `last_activity`,
  `account_age_seconds`, `last_activity_seconds_ago`) and opaque payloads
  (`params`, `result`, `metadata`) are omitted: no claim depends on them and
  they carry no logic.
* `str.strip()`-based emptiness tests (`not s or not s.strip()`) are
  modelled by `isBlank` (the string is empty or all-whitespace);
  `Char.isWhitespace` stands in for Python's Unicode whitespace class.
* The float expressions `base_cost * 1.5**retry_count` (truncated by
  `int(...)`) and `budget_credits * 0.9` are modelled exactly over `ℚ`
  (`1.5 = 3/2`, `0.9 = 9/10`); for the integer magnitudes in scope the
  Python float computation is exact, so the models agree with the source.
-/

namespace Indra

/-! ## `src/indra/credits.py` -/

/-- Source `TransactionType` enum from `credits.py`. -/
inductive TransactionType where
  | TASK_EXECUTION
  | TASK_RETRY
  | MEMORY_STORAGE
  | API_CALL
  | TIMEOUT_PENALTY
  | REFUND
deriving DecidableEq, Repr

/-- Source `CreditTransaction` dataclass (timestamp and metadata omitted). -/
structure CreditTransaction where
  transaction_id : String
  session_id : String
  transaction_type : TransactionType
  /-- Positive for charges, negative for refunds. -/
  amount : Int
  description : String
  task_id : Option String := none
  agent : Option String := none
deriving DecidableEq, Repr

/-- Source `CreditAccount` dataclass (wall-clock fields omitted). -/
structure CreditAccount where
  session_id : String
  initial_budget : Int
  current_balance : Int
  total_spent : Int := 0
  transactions : List CreditTransaction := []
deriving DecidableEq, Repr

/-- Source `CreditManager` state: `self.accounts` (a dict, modelled as an
association list in insertion order, later bindings overriding) and
`self.transaction_counter`. -/
structure CreditManager where
  accounts : List (String × CreditAccount) := []
  transaction_counter : Nat := 0
deriving DecidableEq, Repr

namespace CreditManager

/-- Dict lookup: the *last* binding for the key wins (Python dict
assignment overrides in place).  `get_account` / `self.accounts.get`. -/
def get_account (m : CreditManager) (session_id : String) :
    Option CreditAccount :=
  m.accounts.reverse.lookup session_id

/-- Dict assignment `self.accounts[sid] = account`: replace the binding if
the key is present (keeping its position), else append. -/
def setAccount (sid : String) (a : CreditAccount) :
    List (String × CreditAccount) → List (String × CreditAccount)
  | [] => [(sid, a)]
  | (k, v) :: rest =>
      if k = sid then (k, a) :: setAccount sid a rest
      else (k, v) :: setAccount sid a rest

/-- Source `create_account`: raises when `initial_budget <= 0`, else registers a
fresh account with `current_balance = initial_budget`. -/
def create_account (m : CreditManager) (session_id : String)
    (initial_budget : Int) : Except String (CreditAccount × CreditManager) :=
  if initial_budget ≤ 0 then
    .error "Initial budget must be positive"
  else
    let account : CreditAccount :=
      { session_id := session_id
        initial_budget := initial_budget
        current_balance := initial_budget }
    .ok (account, { m with accounts := setAccount session_id account m.accounts })

/-- Source `charge_credits`: missing account → `False`; `amount <= 0` →
`ValueError`; insufficient balance → `False`; otherwise record the
transaction and debit the account. -/
def charge_credits (m : CreditManager) (session_id : String) (amount : Int)
    (transaction_type : TransactionType) (description : String)
    (task_id : Option String := none) (agent : Option String := none) :
    Except String (Bool × CreditManager) :=
  match m.get_account session_id with
  | none => .ok (false, m)
  | some account =>
      if amount ≤ 0 then .error "Charge amount must be positive"
      else if account.current_balance < amount then .ok (false, m)
      else
        let counter := m.transaction_counter + 1
        let transaction : CreditTransaction :=
          { transaction_id := "tx-" ++ toString counter
            session_id := session_id
            transaction_type := transaction_type
            amount := amount
            description := description
            task_id := task_id
            agent := agent }
        let account' :=
          { account with
              current_balance := account.current_balance - amount
              total_spent := account.total_spent + amount
              transactions := account.transactions ++ [transaction] }
        .ok (true,
          { accounts := setAccount session_id account' m.accounts
            transaction_counter := counter })

/-- Source `refund_credits`: missing account → `False`; `amount <= 0` →
`ValueError`; refund is capped at `total_spent`; a zero cap → `False`. -/
def refund_credits (m : CreditManager) (session_id : String) (amount : Int)
    (description : String) (task_id : Option String := none)
    (agent : Option String := none) : Except String (Bool × CreditManager) :=
  match m.get_account session_id with
  | none => .ok (false, m)
  | some account =>
      if amount ≤ 0 then .error "Refund amount must be positive"
      else
        let refund_amount := min amount account.total_spent
        if refund_amount ≤ 0 then .ok (false, m)
        else
          let counter := m.transaction_counter + 1
          let transaction : CreditTransaction :=
            { transaction_id := "tx-" ++ toString counter
              session_id := session_id
              transaction_type := TransactionType.REFUND
              amount := -refund_amount
              description := description
              task_id := task_id
              agent := agent }
          let account' :=
            { account with
                current_balance := account.current_balance + refund_amount
                total_spent := account.total_spent - refund_amount
                transactions := account.transactions ++ [transaction] }
          .ok (true,
            { accounts := setAccount session_id account' m.accounts
              transaction_counter := counter })

/-- Source `check_budget`: non-mutating query; missing account → `False`. -/
def check_budget (m : CreditManager) (session_id : String)
    (required_amount : Int) : Bool :=
  match m.get_account session_id with
  | none => false
  | some account => required_amount ≤ account.current_balance

end CreditManager

/-- The scalar fields of the dict returned by `get_account_summary`
(the by-agent/by-task/by-type breakdowns and the wall-clock fields are
omitted; no claim depends on them). -/
structure AccountSummary where
  session_id : String
  initial_budget : Int
  current_balance : Int
  total_spent : Int
  /-- `(account.total_spent / account.initial_budget) * 100` — float
  division modelled exactly over `ℚ`. -/
  budget_utilization : ℚ
  total_transactions : Nat
  total_charges : Int
  total_refunds : Int
deriving DecidableEq, Repr

namespace CreditManager

/-- Source `get_account_summary`: `None` for a missing account, else the summary
record. -/
def get_account_summary (m : CreditManager) (session_id : String) :
    Option AccountSummary :=
  match m.get_account session_id with
  | none => none
  | some account =>
      some
        { session_id := account.session_id
          initial_budget := account.initial_budget
          current_balance := account.current_balance
          total_spent := account.total_spent
          budget_utilization :=
            ((account.total_spent : ℚ) / (account.initial_budget : ℚ)) * 100
          total_transactions := account.transactions.length
          total_charges :=
            (account.transactions.filter (fun t => 0 < t.amount)).foldl
              (fun s t => s + t.amount) 0
          total_refunds :=
            (account.transactions.filter (fun t => t.amount < 0)).foldl
              (fun s t => s + (-t.amount)) 0 }

end CreditManager

/-- Source `estimate_retry_cost`: `int(base_cost * 1.5 ** retry_count)`, modelled
exactly as `⌊base_cost * 3^n / 2^n⌋` (for non-negative `base_cost` the
`int(...)` truncation is a floor, and the float computation is exact at the
magnitudes in scope). -/
def estimate_retry_cost (base_cost : Int) (retry_count : Nat) : Int :=
  base_cost * 3 ^ retry_count / 2 ^ retry_count

/-! ### Ledger operation sequences

A call made against a `CreditManager` (the claims quantify over finite
sequences of `charge_credits` / `refund_credits` calls).  A call that
raises (`Except.error`) leaves the state unchanged, as in the source. -/

/-- One external ledger call. -/
inductive LedgerOp where
  | charge (session_id : String) (amount : Int) (ttype : TransactionType)
      (description : String) (task_id agent : Option String)
  | refund (session_id : String) (amount : Int) (description : String)
      (task_id agent : Option String)
deriving DecidableEq, Repr

/-- Apply one call; an exception leaves the manager unchanged. -/
def applyOp (m : CreditManager) : LedgerOp → CreditManager
  | .charge sid amt ty d tid ag =>
      match m.charge_credits sid amt ty d tid ag with
      | .ok (_, m') => m'
      | .error _ => m
  | .refund sid amt d tid ag =>
      match m.refund_credits sid amt d tid ag with
      | .ok (_, m') => m'
      | .error _ => m

/-- Apply a finite sequence of calls in order. -/
def runOps (m : CreditManager) : List LedgerOp → CreditManager
  | [] => m
  | op :: ops => runOps (applyOp m op) ops

/-- The per-account ledger invariant of the claim:
`current_balance = initial_budget - total_spent` and `total_spent ≥ 0`. -/
def AccountInv (a : CreditAccount) : Prop :=
  a.current_balance = a.initial_budget - a.total_spent ∧ 0 ≤ a.total_spent

/-- Every registered account satisfies the ledger invariant. -/
def ManagerInv (m : CreditManager) : Prop :=
  ∀ sid a, m.get_account sid = some a → AccountInv a

/-! ## `src/indra/beescript.py` — data model -/

/-- Source `TaskStatus` enum. -/
inductive TaskStatus where
  | PENDING
  | READY
  | IN_PROGRESS
  | COMPLETED
  | FAILED
  | SKIPPED
deriving DecidableEq, Repr

/-- Source `BeeScriptTask` dataclass (the opaque `params` and `result` payloads are
omitted). -/
structure BeeScriptTask where
  id : String
  agent : String
  task : String
  /-- Task dependencies (`after`). -/
  after : List String := []
  cost_estimate : Int := 10
  retry_max : Int := 2
  timeout_seconds : Int := 30
  status : TaskStatus := TaskStatus.PENDING
  actual_cost : Int := 0
  retry_count : Int := 0
  error_message : Option String := none
deriving DecidableEq, Repr

/-- Source `BeeScript` dataclass (wall-clock `start_time` / `end_time` omitted). -/
structure BeeScript where
  goal : String
  budget_credits : Int
  timeout_minutes : Int := 10
  subtasks : List BeeScriptTask := []
  total_cost : Int := 0
  status : String := "PENDING"
deriving DecidableEq, Repr

/-! ## `BeeScriptValidator` -/

/-- The test `not s or not s.strip()`: empty or whitespace-only. -/
def isBlank (s : String) : Bool :=
  s.data.all Char.isWhitespace

/-- Source `BeeScriptValidator._validate_task`: the first failing check's error
message, or `none` when the task passes.  (The source appends the message
to `self.errors` and returns `False`; at most one message per call.) -/
def validate_task (t : BeeScriptTask) (existing_ids : List String) :
    Option String :=
  if isBlank t.id then some "Task ID cannot be empty"
  else if t.id ∈ existing_ids then some ("Duplicate task ID: " ++ t.id)
  else if isBlank t.agent then
    some ("Task " ++ t.id ++ ": Agent cannot be empty")
  else if isBlank t.task then
    some ("Task " ++ t.id ++ ": Task type cannot be empty")
  else if t.cost_estimate ≤ 0 then
    some ("Task " ++ t.id ++ ": Cost estimate must be positive")
  else if t.retry_max < 0 then
    some ("Task " ++ t.id ++ ": Retry max cannot be negative")
  else if t.timeout_seconds ≤ 0 then
    some ("Task " ++ t.id ++ ": Timeout must be positive")
  else none

/-- The per-task loop of `validate`: validates each task against the ids
seen so far, stopping at the first failure (`return False`). -/
def validateTasksLoop : List BeeScriptTask → List String → Option String
  | [], _ => none
  | t :: ts, ids =>
      match validate_task t ids with
      | some e => some e
      | none => validateTasksLoop ts (ids ++ [t.id])

/-- The missing-dependency scan of `_validate_dependencies`: the first
`(task, dep)` in iteration order whose `dep` names no task id. -/
def firstMissingDep (tasks : List BeeScriptTask) : Option (String × String) :=
  tasks.findSome? fun t =>
    (t.after.find? fun d => !(tasks.any fun u => u.id = d)).map
      fun d => (t.id, d)

/-! ### `_has_circular_dependencies` — three-colour DFS

The source builds `graph = {task.id: task.after for task in tasks}` and a
`state` dict (`0` unvisited, `1` visiting, `2` visited), then runs a
recursive `dfs` from every unvisited key.  The embedding keeps the dict
conventions: keys iterate in first-insertion order, a lookup takes the last
binding.  `state` is modelled as a total function `String → Nat` (the
source would `KeyError` on a node outside the graph; the validator only
reaches the DFS once every dependency resolves, so all visited nodes are
keys).  The recursion is modelled with explicit fuel; `graph.length + 1`
fuel is shown sufficient below. -/

/-- Adjacency: `graph[n]` with last-binding-wins dict semantics. -/
def nbrs (g : List (String × List String)) (n : String) : List String :=
  (g.reverse.lookup n).getD []

/-- First-insertion-order deduplication (`seen` carries the keys already
kept), mirroring how a Python dict comprehension orders its keys. -/
def dedupKeys : List String → List String → List String
  | [], _ => []
  | k :: ks, seen =>
      if k ∈ seen then dedupKeys ks seen
      else k :: dedupKeys ks (k :: seen)

/-- Dict key iteration order: first-insertion order. -/
def dictKeys (g : List (String × List String)) : List String :=
  dedupKeys (g.map Prod.fst) []

/-- DFS visit state map. -/
abbrev DfsState := String → Nat

/-- Source `state[n] = v`. -/
def setSt (st : DfsState) (n : String) (v : Nat) : DfsState :=
  fun m => if m = n then v else st m

/-- The inner `dfs(node)` of `_has_circular_dependencies`, fuelled so the
recursion is structural (hence computable by the kernel).  The neighbour
loop `for neighbor in graph[node]: if dfs(neighbor): return True` is the
fold `dfsStep`: the accumulator carries the flag and the threaded state,
and once the flag is set the remaining neighbours are skipped — the
Python early `return`. -/
def dfs (g : List (String × List String)) :
    Nat → DfsState → String → Bool × DfsState
  | 0, st, _ => (true, st)
  | fuel + 1, st, n =>
      if st n = 1 then (true, st)
      else if st n = 2 then (false, st)
      else
        match (nbrs g n).foldl
            (fun acc b => if acc.1 then acc else dfs g fuel acc.2 b)
            (false, setSt st n 1) with
        | (true, st2) => (true, st2)
        | (false, st2) => (false, setSt st2 n 2)

/-- The outer loop: `for node in graph: if state[node] == 0 and dfs(node):
return True`, threading the state between roots. -/
def dfsAll (g : List (String × List String)) :
    List String → DfsState → Bool
  | [], _ => false
  | k :: ks, st =>
      if st k = 0 then
        match dfs g (g.length + 1) st k with
        | (true, _) => true
        | (false, st') => dfsAll g ks st'
      else dfsAll g ks st

/-- The adjacency dict `graph = {task.id: task.after for task in tasks}`
as an association list in insertion order. -/
def taskGraph (tasks : List BeeScriptTask) : List (String × List String) :=
  tasks.map fun t => (t.id, t.after)

/-- Source `_has_circular_dependencies(tasks)`. -/
def has_circular_dependencies (tasks : List BeeScriptTask) : Bool :=
  dfsAll (taskGraph tasks) (dictKeys (taskGraph tasks)) (fun _ => 0)

/-- Source `_validate_dependencies`: missing-reference scan (first hit wins and
returns), then the cycle check; the appended error, or `none` on success. -/
def validate_dependencies (tasks : List BeeScriptTask) : Option String :=
  match firstMissingDep tasks with
  | some (tid, dep) =>
      some ("Task " ++ tid ++ ": Unknown dependency '" ++ dep ++ "'")
  | none =>
      if has_circular_dependencies tasks then
        some "Circular dependency detected in task graph"
      else none

/-- Source `sum(task.cost_estimate for task in script.subtasks)`. -/
def totalEstimatedCost (script : BeeScript) : Int :=
  script.subtasks.foldl (fun s t => s + t.cost_estimate) 0

/-- Source `BeeScriptValidator.validate`: the returned flag together with the
`errors` and `warnings` lists the call leaves behind.  The basic checks
accumulate; the task loop, the dependency check and the budget check each
`return False` at their first failure. -/
def validate (script : BeeScript) : Bool × List String × List String :=
  let base :=
    (if isBlank script.goal then ["Goal cannot be empty"] else []) ++
    (if script.budget_credits ≤ 0 then ["Budget must be positive"] else []) ++
    (if script.subtasks = [] then ["At least one subtask is required"] else [])
  match validateTasksLoop script.subtasks [] with
  | some e => (false, base ++ [e], [])
  | none =>
      match validate_dependencies script.subtasks with
      | some e => (false, base ++ [e], [])
      | none =>
          let total := totalEstimatedCost script
          if script.budget_credits < total then
            (false,
             base ++
               ["Estimated cost (" ++ toString total ++ ") exceeds budget (" ++
                 toString script.budget_credits ++ ")"],
             [])
          else
            let warnings :=
              if (script.budget_credits : ℚ) * (9 / 10) < (total : ℚ) then
                ["Budget is very tight - consider increasing buffer"]
              else []
            (base = [], base, warnings)

/-! ## `BeeScriptExecutor` -/

/-- Source `_find_task_by_id`: first task with the given id, in list order. -/
def find_task_by_id (script : BeeScript) (task_id : String) :
    Option BeeScriptTask :=
  script.subtasks.find? fun t => t.id = task_id

/-- In-place mutation of the task object `_find_task_by_id` returns:
rewrite the first task with the given id. -/
def updateTaskById (tid : String) (f : BeeScriptTask → BeeScriptTask) :
    List BeeScriptTask → List BeeScriptTask
  | [] => []
  | t :: ts =>
      if t.id = tid then f t :: ts else t :: updateTaskById tid f ts

/-- Source `can_execute_task`: budget headroom for the estimate, retry limit,
and all dependencies `COMPLETED`. -/
def can_execute_task (script : BeeScript) (task : BeeScriptTask) : Bool :=
  if script.budget_credits < script.total_cost + task.cost_estimate then
    false
  else if task.retry_max ≤ task.retry_count then false
  else
    task.after.all fun dep_id =>
      match find_task_by_id script dep_id with
      | some dep => dep.status = TaskStatus.COMPLETED
      | none => false

/-- Source `mark_task_completed` (the opaque `result` payload is omitted):
set the status, overwrite `actual_cost`, add the cost to the script's
running total.  An unknown id is a no-op. -/
def mark_task_completed (script : BeeScript) (task_id : String)
    (actual_cost : Int) : BeeScript :=
  match find_task_by_id script task_id with
  | none => script
  | some _ =>
      { script with
          subtasks :=
            updateTaskById task_id
              (fun t =>
                { t with
                    status := TaskStatus.COMPLETED
                    actual_cost := actual_cost })
              script.subtasks
          total_cost := script.total_cost + actual_cost }

/-- The body of the inner `mark_skipped` of `_mark_dependents_skipped`,
starting its scan of `script.subtasks` at index `i` (fuelled; both the
loop step and the recursive restart run at `fuel - 1`).

Note the faithful quirk of the source: the inner function's parameter is
*ignored* — its body always tests `failed_task_id in task.after`, so the
recursive call `mark_skipped(task.id)` repeats the same scan instead of
descending to `task`'s own dependents. -/
def markSkippedGo (failed_task_id : String) :
    Nat → Nat → List BeeScriptTask → List BeeScriptTask
  | 0, _, tasks => tasks
  | fuel + 1, i, tasks =>
      match tasks[i]? with
      | none => tasks
      | some t =>
          if failed_task_id ∈ t.after ∧
              (t.status = TaskStatus.PENDING ∨ t.status = TaskStatus.READY) then
            let tasks1 := tasks.set i { t with status := TaskStatus.SKIPPED }
            let tasks2 := markSkippedGo failed_task_id fuel 0 tasks1
            markSkippedGo failed_task_id fuel (i + 1) tasks2
          else markSkippedGo failed_task_id fuel (i + 1) tasks

/-- Source `_mark_dependents_skipped(script, failed_task_id)`.  The fuel bounds
the nesting depth of the source's recursion: a restart happens only after
a PENDING/READY task is flipped (at most `n` flips) and a scan advances at
most `n + 1` times, so depth `(n + 1) * (n + 2)` over-approximates any
actual run. -/
def mark_dependents_skipped (script : BeeScript) (failed_task_id : String) :
    BeeScript :=
  let n := script.subtasks.length
  { script with
      subtasks := markSkippedGo failed_task_id ((n + 1) * (n + 2)) 0
        script.subtasks }

/-- Source `mark_task_failed`: increments `retry_count`, records the error, adds
the partial cost to the task and the script; then status `FAILED` plus
the dependent cascade when `retry_count >= retry_max` (checked after the
increment), else back to `PENDING`.  An unknown id is a no-op. -/
def mark_task_failed (script : BeeScript) (task_id : String)
    (error : String) (actual_cost : Int := 0) : BeeScript :=
  match find_task_by_id script task_id with
  | none => script
  | some t =>
      let base :=
        { script with
            subtasks :=
              updateTaskById task_id
                (fun u =>
                  { u with
                      retry_count := u.retry_count + 1
                      error_message := some error
                      actual_cost := u.actual_cost + actual_cost
                      status :=
                        if u.retry_max ≤ u.retry_count + 1 then
                          TaskStatus.FAILED
                        else TaskStatus.PENDING })
                script.subtasks
            total_cost := script.total_cost + actual_cost }
      if t.retry_max ≤ t.retry_count + 1 then
        mark_dependents_skipped base task_id
      else base

/-! ### `get_execution_order` — topological sort with parallel batches -/

/-- One pass of the `while remaining_tasks` loop: the ids of the tasks
none of whose dependencies are still in the remaining dict, in iteration
order. -/
def kahnBatch (remaining : List BeeScriptTask) : List String :=
  (remaining.filter fun t =>
      t.after.all fun dep => remaining.all fun u => u.id ≠ dep).map
    fun t => t.id

/-- The `while remaining_tasks` loop of `get_execution_order` (the
remaining dict is modelled as the remaining sublist; under the unique ids
guaranteed by validation the two agree).  An empty batch with tasks left
raises `ValueError("Circular dependency detected")`.  Fuelled so the
recursion is structural: every genuine iteration removes at least one
task, so fuel `remaining.length` makes the fuel-exhausted branch
unreachable (`kahnLoop_fuel` below); that branch returns the same
cycle error the stuck loop would raise. -/
def kahnLoop : Nat → List BeeScriptTask →
    Except String (List (List String))
  | _, [] => .ok []
  | 0, _ :: _ => .error "Circular dependency detected"
  | fuel + 1, remaining =>
      let batch := kahnBatch remaining
      if batch = [] then .error "Circular dependency detected"
      else
        match kahnLoop fuel (remaining.filter fun t => t.id ∉ batch) with
        | .ok bs => .ok (batch :: bs)
        | .error e => .error e

/-- Source `get_execution_order`: validate, then batch.  An invalid script raises
`ValueError(f"Invalid BeeScript: {errors}")` (the interpolated error text
is not modelled). -/
def get_execution_order (script : BeeScript) :
    Except String (List (List String)) :=
  if (validate script).1 then
    kahnLoop script.subtasks.length script.subtasks
  else .error "Invalid BeeScript"

/-! ## Specification-side notions used to state the claims -/

/-- One step of the dependency relation the DFS follows: `graph[x]`
contains `y` (task `x` depends on task `y`). -/
def GEdge (g : List (String × List String)) (x y : String) : Prop :=
  y ∈ nbrs g x

/-- The dependency relation has a cycle: some id reaches itself in one or
more `after` steps. -/
def HasCycle (g : List (String × List String)) : Prop :=
  ∃ x, Relation.TransGen (GEdge g) x x

/-- Every dependency reference names an existing task id. -/
def ResolvedDeps (tasks : List BeeScriptTask) : Prop :=
  ∀ t ∈ tasks, ∀ d ∈ t.after, ∃ u ∈ tasks, u.id = d

/-- Closure of an adjacency list: every listed neighbour is again a key. -/
def ClosedGraph (g : List (String × List String)) : Prop :=
  ∀ x y, GEdge g x y → y ∈ dictKeys g

/-- The number of unvisited keys, the measure showing the DFS fuel
sufficient. -/
def count0 (g : List (String × List String)) (st : DfsState) : Nat :=
  ((dictKeys g).filter fun k => st k = 0).length

/-- The DFS state map only holds the three colours 0, 1, 2. -/
def St3 (st : DfsState) : Prop :=
  ∀ m, st m = 0 ∨ st m = 1 ∨ st m = 2

/-- No cycle is reachable from `m` along the dependency relation. -/
def SafeFrom (g : List (String × List String)) (m : String) : Prop :=
  ¬∃ x, Relation.ReflTransGen (GEdge g) m x ∧
    Relation.TransGen (GEdge g) x x

/-- Every finished (state-2) node is cycle-safe. -/
def Safe2 (g : List (String × List String)) (st : DfsState) : Prop :=
  ∀ m, st m = 2 → SafeFrom g m

/-- The statuses of the subtasks of a script, by task id (used to read off
executor effects). -/
def statusOf (script : BeeScript) (tid : String) : Option TaskStatus :=
  (find_task_by_id script tid).map fun t => t.status

/-- Pointwise effect of the skip scan on one task: untouched, or — when it
is a *direct* dependent of the failed task and PENDING/READY — flipped to
SKIPPED. -/
def SkipOnly (failed : String) (t t' : BeeScriptTask) : Prop :=
  t' = t ∨
    (failed ∈ t.after ∧
      (t.status = TaskStatus.PENDING ∨ t.status = TaskStatus.READY) ∧
      t' = { t with status := TaskStatus.SKIPPED })

/-- Iterated worker failures of one task, each with zero partial cost. -/
def iterateFailures (script : BeeScript) (tid err : String) :
    Nat → BeeScript
  | 0 => script
  | n + 1 => mark_task_failed (iterateFailures script tid err n) tid err 0

/-! ### Concrete inputs for the cascade claim (chain a ← b ← c) -/

/-- Chain head: no dependencies, default `retry_max = 2`. -/
def taskA : BeeScriptTask := { id := "a", agent := "w", task := "k" }

/-- Middle of the chain: depends on `a`. -/
def taskB : BeeScriptTask := { id := "b", agent := "w", task := "k", after := ["a"] }

/-- End of the chain: depends on `b` (and only transitively on `a`). -/
def taskC : BeeScriptTask := { id := "c", agent := "w", task := "k", after := ["b"] }

/-- The chain script `a ← b ← c`. -/
def chainScript : BeeScript :=
  { goal := "g", budget_credits := 100, subtasks := [taskA, taskB, taskC] }

/-- The chain script after task `a` exhausted its retries: two failures of
`a` (`retry_max = 2`, so the second failure is permanent). -/
def chainAfterFailures : BeeScript :=
  mark_task_failed (mark_task_failed chainScript "a" "boom" 0) "a" "boom" 0

/-! ### Concrete input for the budget-utilization claim -/

/-- A reachable manager state: account `"s"` created with budget `100`,
then charged `50` — half the budget spent. -/
def c9Manager : CreditManager :=
  match CreditManager.create_account {} "s" 100 with
  | .error _ => {}
  | .ok (_, m1) =>
      match m1.charge_credits "s" 50 TransactionType.TASK_EXECUTION "half" with
      | .error _ => m1
      | .ok (_, m2) => m2

/-! ### Concrete inputs for the cycle-detection claim -/

/-- A script with a self-dependent task whose agent is blank: the per-task
loop fails before the dependency checks run. -/
def c7BadScript : BeeScript :=
  { goal := "g", budget_credits := 100,
    subtasks := [{ id := "t", agent := "", task := "k", after := ["t"] }] }

/-- A script whose only flaw is a self-dependency cycle. -/
def c7CycScript : BeeScript :=
  { goal := "g", budget_credits := 100,
    subtasks := [{ id := "t", agent := "w", task := "k", after := ["t"] }] }

/-! ## Lemmas about the association-list dictionary -/

theorem lookup_append {β : Type} (l₁ l₂ : List (String × β)) (k : String) :
    (l₁ ++ l₂).lookup k = ((l₁.lookup k).orElse fun _ => l₂.lookup k) := by
  induction l₁ with
  | nil => simp [List.lookup]
  | cons p l ih =>
      obtain ⟨a, b⟩ := p
      cases h : (k == a) with
      | true => simp [List.lookup, h]
      | false => simp [List.lookup, h, ih]

theorem lookup_reverse_setAccount_self (sid : String) (a : CreditAccount)
    (l : List (String × CreditAccount)) :
    (CreditManager.setAccount sid a l).reverse.lookup sid = some a := by
  induction l with
  | nil => simp [CreditManager.setAccount, List.lookup]
  | cons p rest ih =>
      obtain ⟨k, v⟩ := p
      by_cases hk : k = sid <;>
        simp [CreditManager.setAccount, hk, lookup_append, ih, Option.orElse]

theorem lookup_reverse_setAccount_ne (sid sid' : String) (a : CreditAccount)
    (l : List (String × CreditAccount)) (h : sid' ≠ sid) :
    (CreditManager.setAccount sid a l).reverse.lookup sid' =
      l.reverse.lookup sid' := by
  induction l with
  | nil =>
      simp [CreditManager.setAccount, List.lookup,
        beq_eq_false_iff_ne.mpr h]
  | cons p rest ih =>
      obtain ⟨k, v⟩ := p
      by_cases hk : k = sid <;>
        simp [CreditManager.setAccount, hk, lookup_append, ih, List.lookup,
          beq_eq_false_iff_ne.mpr h]

/-- Reading any session after a `setAccount`: the written account for the
written session, the old lookup elsewhere. -/
theorem get_account_after_set (m : CreditManager) (counter : Nat)
    (sid sid' : String) (a : CreditAccount) :
    CreditManager.get_account
        { accounts := CreditManager.setAccount sid a m.accounts
          transaction_counter := counter } sid' =
      if sid' = sid then some a else m.get_account sid' := by
  by_cases h : sid' = sid
  · subst h; simp [CreditManager.get_account, lookup_reverse_setAccount_self]
  · simp [CreditManager.get_account, h, lookup_reverse_setAccount_ne _ _ _ _ h]

/-! ## Ledger invariant lemmas -/

theorem accountInv_charge (account : CreditAccount) (amount : Int)
    (tx : CreditTransaction) (hinv : AccountInv account) (hpos : 0 < amount) :
    AccountInv
      { account with
          current_balance := account.current_balance - amount
          total_spent := account.total_spent + amount
          transactions := account.transactions ++ [tx] } := by
  obtain ⟨hbal, hspent⟩ := hinv
  constructor
  · simp [hbal]; ring
  · simp; omega

theorem accountInv_refund (account : CreditAccount) (r : Int)
    (tx : CreditTransaction) (hinv : AccountInv account)
    (hr : r ≤ account.total_spent) :
    AccountInv
      { account with
          current_balance := account.current_balance + r
          total_spent := account.total_spent - r
          transactions := account.transactions ++ [tx] } := by
  obtain ⟨hbal, hspent⟩ := hinv
  constructor
  · simp [hbal]; ring
  · simp; omega

theorem managerInv_applyOp (m : CreditManager) (op : LedgerOp)
    (hinv : ManagerInv m) : ManagerInv (applyOp m op) := by
  cases op with
  | charge sid amt ty d tid ag =>
      simp only [applyOp, CreditManager.charge_credits]
      cases hacc : m.get_account sid with
      | none => exact hinv
      | some account =>
          by_cases hle : amt ≤ 0
          · simp only [if_pos hle]
            exact hinv
          · simp only [if_neg hle]
            by_cases hbal : account.current_balance < amt
            · simp only [if_pos hbal]
              exact hinv
            · simp only [if_neg hbal]
              intro sid' a' ha'
              rw [get_account_after_set] at ha'
              by_cases h' : sid' = sid
              · simp only [h', if_true, Option.some.injEq] at ha'
                subst ha'
                exact accountInv_charge account amt _ (hinv sid account hacc)
                  (by omega)
              · exact hinv sid' a' (by simpa [h'] using ha')
  | refund sid amt d tid ag =>
      simp only [applyOp, CreditManager.refund_credits]
      cases hacc : m.get_account sid with
      | none => exact hinv
      | some account =>
          by_cases hle : amt ≤ 0
          · simp only [if_pos hle]
            exact hinv
          · simp only [if_neg hle]
            by_cases hcap : min amt account.total_spent ≤ 0
            · simp only [if_pos hcap]
              exact hinv
            · simp only [if_neg hcap]
              intro sid' a' ha'
              rw [get_account_after_set] at ha'
              by_cases h' : sid' = sid
              · simp only [h', if_true, Option.some.injEq] at ha'
                subst ha'
                exact accountInv_refund account _ _ (hinv sid account hacc)
                  (min_le_right _ _)
              · exact hinv sid' a' (by simpa [h'] using ha')

theorem managerInv_runOps (m : CreditManager) (ops : List LedgerOp)
    (hinv : ManagerInv m) : ManagerInv (runOps m ops) := by
  induction ops generalizing m with
  | nil => simpa [runOps] using hinv
  | cons op ops ih => exact ih _ (managerInv_applyOp m op hinv)

theorem managerInv_create (m : CreditManager) (sid : String) (b : Int)
    (a : CreditAccount) (m' : CreditManager) (hinv : ManagerInv m)
    (h : m.create_account sid b = .ok (a, m')) :
    ManagerInv m' ∧ a.current_balance = b ∧ a.initial_budget = b ∧
      a.total_spent = 0 := by
  by_cases hb : b ≤ 0
  · simp [CreditManager.create_account, hb] at h
  · simp only [CreditManager.create_account, hb, if_false, Except.ok.injEq,
      Prod.mk.injEq] at h
    obtain ⟨ha, hm⟩ := h
    subst ha
    refine ⟨?_, rfl, rfl, rfl⟩
    intro sid' a' ha'
    rw [← hm] at ha'
    rw [get_account_after_set] at ha'
    by_cases h' : sid' = sid
    · simp only [h', if_true, Option.some.injEq] at ha'
      subst ha'
      exact ⟨by simp, by simp⟩
    · exact hinv sid' a' (by simpa [h'] using ha')

/-! ## Claim C4 -/

/-- C4 — Ledger account invariant.  Accounts created by `create_account`
satisfy `current_balance = initial_budget - total_spent` with
`total_spent = 0`; the invariant (together with `0 ≤ total_spent`) is
preserved by every finite sequence of `charge_credits` / `refund_credits`
calls; a charge exceeding the current balance is rejected with `False` and
leaves the manager untouched (not clamped, not partially applied); and
consequently the balance never exceeds the initial budget. -/
theorem c4_ledger_account_invariant :
    (∀ (m : CreditManager) (sid : String) (b : Int) (a : CreditAccount)
        (m' : CreditManager), ManagerInv m →
        m.create_account sid b = .ok (a, m') →
        ManagerInv m' ∧ a.current_balance = b ∧ a.initial_budget = b ∧
          a.total_spent = 0) ∧
    (∀ (m : CreditManager) (ops : List LedgerOp), ManagerInv m →
        ManagerInv (runOps m ops)) ∧
    (∀ (m : CreditManager) (sid : String) (a : CreditAccount) (amt : Int)
        (ty : TransactionType) (d : String) (tid ag : Option String),
        m.get_account sid = some a → 0 < amt → a.current_balance < amt →
        m.charge_credits sid amt ty d tid ag = .ok (false, m)) ∧
    (∀ (m : CreditManager) (ops : List LedgerOp) (sid : String)
        (a : CreditAccount), ManagerInv m →
        (runOps m ops).get_account sid = some a →
        a.current_balance = a.initial_budget - a.total_spent ∧
          0 ≤ a.total_spent ∧ a.current_balance ≤ a.initial_budget) := by
  refine ⟨managerInv_create, managerInv_runOps, ?_, ?_⟩
  · intro m sid a amt ty d tid ag hacc hpos hbal
    simp only [CreditManager.charge_credits, hacc]
    rw [if_neg (show ¬amt ≤ 0 by omega), if_pos hbal]
  · intro m ops sid a hinv hacc
    obtain ⟨h1, h2⟩ := managerInv_runOps m ops hinv sid a hacc
    exact ⟨h1, h2, by omega⟩

/-- Witness for C4: the invariant after a concrete charge on a concrete
account, and a concrete overspend rejection (balance 3, charge 5). -/
theorem c4_ledger_account_invariant_witness :
    ManagerInv (runOps { }
      [LedgerOp.charge "s" 5 TransactionType.API_CALL "d" none none]) ∧
    CreditManager.charge_credits
        { accounts :=
            [("s", { session_id := "s", initial_budget := 10,
                     current_balance := 3, total_spent := 7 })]
          transaction_counter := 0 }
        "s" 5 TransactionType.API_CALL "d" none none =
      .ok (false,
        { accounts :=
            [("s", { session_id := "s", initial_budget := 10,
                     current_balance := 3, total_spent := 7 })]
          transaction_counter := 0 }) :=
  ⟨c4_ledger_account_invariant.2.1 { } _
      (fun sid a h => by
        simp [CreditManager.get_account, List.lookup] at h),
    c4_ledger_account_invariant.2.2.1 _ "s" _ 5
      TransactionType.API_CALL "d" none none rfl (by decide) (by decide)⟩

/-! ## Claim C9 -/

/-- C9 counterexample — with half of a 100-credit budget spent, the
summary's `budget_utilization` is `50` (a percentage), not the ratio
`50 / 100 = 1/2` the claim states. -/
theorem c9_budget_utilization_counterexample :
    (CreditManager.get_account_summary c9Manager "s").map
        AccountSummary.budget_utilization = some 50 ∧
    (CreditManager.get_account_summary c9Manager "s").map
        AccountSummary.total_spent = some 50 ∧
    (CreditManager.get_account_summary c9Manager "s").map
        AccountSummary.initial_budget = some 100 ∧
    (50 : ℚ) ≠ (50 : ℚ) / (100 : ℚ) := by
  have hacc : c9Manager.get_account "s" = some
      { session_id := "s", initial_budget := 100, current_balance := 50,
        total_spent := 50,
        transactions :=
          [({ transaction_id := "tx-1", session_id := "s",
              transaction_type := TransactionType.TASK_EXECUTION,
              amount := 50,
              description := "half" } : CreditTransaction)] } := rfl
  refine ⟨?_, ?_, ?_, by norm_num⟩ <;>
    simp [CreditManager.get_account_summary, hacc]

/-- C9 amended — `budget_utilization` equals
`(total_spent / initial_budget) * 100`, the percentage of the budget
spent. -/
theorem c9_budget_utilization_pct (m : CreditManager) (sid : String)
    (a : CreditAccount) (h : m.get_account sid = some a) :
    (m.get_account_summary sid).map AccountSummary.budget_utilization =
      some (((a.total_spent : ℚ) / (a.initial_budget : ℚ)) * 100) := by
  simp [CreditManager.get_account_summary, h]

/-- Witness for the amended C9 at the concrete half-spent account. -/
theorem c9_budget_utilization_pct_witness :
    (CreditManager.get_account_summary c9Manager "s").map
        AccountSummary.budget_utilization =
      some (((50 : Int) : ℚ) / ((100 : Int) : ℚ) * 100) := by
  rw [c9_budget_utilization_pct c9Manager "s"
    { session_id := "s", initial_budget := 100, current_balance := 50,
      total_spent := 50,
      transactions :=
        [{ transaction_id := "tx-1", session_id := "s",
           transaction_type := TransactionType.TASK_EXECUTION, amount := 50,
           description := "half" }] } rfl]

/-! ## Claim C10 -/

/-- C10 — Unknown-session behaviour: when no account exists for the
session id, `charge_credits`, `refund_credits` and `check_budget` all
return `False`, raise nothing, and leave the manager unchanged — for
every amount, including amounts `≤ 0` (the missing-account check precedes
the positive-amount `ValueError`). -/
theorem c10_unknown_session (m : CreditManager) (sid : String)
    (camt ramt req : Int) (ty : TransactionType) (d1 d2 : String)
    (tid ag : Option String) (h : m.get_account sid = none) :
    m.charge_credits sid camt ty d1 tid ag = .ok (false, m) ∧
    m.refund_credits sid ramt d2 tid ag = .ok (false, m) ∧
    m.check_budget sid req = false := by
  refine ⟨?_, ?_, ?_⟩ <;>
    simp [CreditManager.charge_credits, CreditManager.refund_credits,
      CreditManager.check_budget, h]

/-- Witness for C10 on the empty manager with a negative charge amount. -/
theorem c10_unknown_session_witness :
    CreditManager.charge_credits { } "ghost" (-5) TransactionType.API_CALL
        "d" none none = .ok (false, { }) ∧
    CreditManager.refund_credits { } "ghost" 0 "d" none none =
      .ok (false, { }) ∧
    CreditManager.check_budget { } "ghost" 7 = false :=
  c10_unknown_session { } "ghost" (-5) 0 7 TransactionType.API_CALL
    "d" "d" none none rfl

/-! ## Lemmas about the skip cascade and the executor -/

theorem skipOnly_id {failed : String} {t t' : BeeScriptTask}
    (h : SkipOnly failed t t') : t'.id = t.id := by
  rcases h with rfl | ⟨-, -, rfl⟩ <;> rfl

theorem skipOnly_trans {failed : String} {a b c : BeeScriptTask}
    (h1 : SkipOnly failed a b) (h2 : SkipOnly failed b c) :
    SkipOnly failed a c := by
  rcases h1 with rfl | ⟨hm, hs, rfl⟩
  · exact h2
  · rcases h2 with rfl | ⟨hm2, hs2, rfl⟩
    · exact Or.inr ⟨hm, hs, rfl⟩
    · rcases hs2 with h | h <;> simp at h

theorem forall₂_skipOnly_refl (failed : String) (l : List BeeScriptTask) :
    List.Forall₂ (SkipOnly failed) l l :=
  List.forall₂_same.mpr fun _ _ => Or.inl rfl

theorem forall₂_skipOnly_trans (failed : String) :
    ∀ {l1 l2 l3 : List BeeScriptTask},
      List.Forall₂ (SkipOnly failed) l1 l2 →
      List.Forall₂ (SkipOnly failed) l2 l3 →
      List.Forall₂ (SkipOnly failed) l1 l3 := by
  intro l1 l2 l3 h12
  induction h12 generalizing l3 with
  | nil => intro h23; exact h23
  | cons hab _ ih =>
      intro h23
      cases h23 with
      | cons hbc h' => exact List.Forall₂.cons (skipOnly_trans hab hbc) (ih h')

theorem forall₂_skipOnly_set (failed : String) :
    ∀ (tasks : List BeeScriptTask) (i : Nat) (t : BeeScriptTask),
      tasks[i]? = some t → failed ∈ t.after →
      (t.status = TaskStatus.PENDING ∨ t.status = TaskStatus.READY) →
      List.Forall₂ (SkipOnly failed) tasks
        (tasks.set i { t with status := TaskStatus.SKIPPED }) := by
  intro tasks
  induction tasks with
  | nil => intro i t h; simp at h
  | cons a l ih =>
      intro i t h hm hs
      cases i with
      | zero =>
          simp only [List.getElem?_cons_zero, Option.some.injEq] at h
          subst h
          exact List.Forall₂.cons (Or.inr ⟨hm, hs, rfl⟩)
            (forall₂_skipOnly_refl failed l)
      | succ n =>
          simp only [List.getElem?_cons_succ] at h
          rw [List.set_cons_succ]
          exact List.Forall₂.cons (Or.inl rfl) (ih n t h hm hs)

theorem markSkippedGo_skipOnly (failed : String) :
    ∀ (fuel i : Nat) (tasks : List BeeScriptTask),
      List.Forall₂ (SkipOnly failed) tasks (markSkippedGo failed fuel i tasks) := by
  intro fuel
  induction fuel with
  | zero => intro i tasks; exact forall₂_skipOnly_refl failed tasks
  | succ fuel ih =>
      intro i tasks
      rw [markSkippedGo]
      cases h : tasks[i]? with
      | none => exact forall₂_skipOnly_refl failed tasks
      | some t =>
          dsimp only
          by_cases hc : failed ∈ t.after ∧
              (t.status = TaskStatus.PENDING ∨ t.status = TaskStatus.READY)
          · rw [if_pos hc]
            refine forall₂_skipOnly_trans failed
              (forall₂_skipOnly_set failed tasks i t h hc.1 hc.2)
              (forall₂_skipOnly_trans failed (ih 0 _) (ih (i + 1) _))
          · rw [if_neg hc]
            exact ih (i + 1) tasks

theorem find?_skipOnly (failed tid : String) :
    ∀ {l l' : List BeeScriptTask}, List.Forall₂ (SkipOnly failed) l l' →
      (l.find? (fun t => t.id = tid) = none ∧
        l'.find? (fun t => t.id = tid) = none) ∨
      ∃ t t', l.find? (fun t => t.id = tid) = some t ∧
        l'.find? (fun t => t.id = tid) = some t' ∧ SkipOnly failed t t' := by
  intro l l' h
  induction h with
  | nil => left; simp
  | @cons a b l l' hab _ ih =>
      by_cases hpa : a.id = tid
      · right
        refine ⟨a, b, ?_, ?_, hab⟩
        · exact List.find?_cons_of_pos _ (by simpa using hpa)
        · exact List.find?_cons_of_pos _ (by simp [skipOnly_id hab, hpa])
      · rw [List.find?_cons_of_neg _ (by simpa using hpa),
          List.find?_cons_of_neg _ (by simp [skipOnly_id hab, hpa])]
        exact ih

theorem find?_updateTaskById (tid : String)
    (f : BeeScriptTask → BeeScriptTask) (hf : ∀ u, (f u).id = u.id) :
    ∀ l : List BeeScriptTask,
      (updateTaskById tid f l).find? (fun t => t.id = tid) =
        (l.find? (fun t => t.id = tid)).map f := by
  intro l
  induction l with
  | nil => simp [updateTaskById]
  | cons a l ih =>
      by_cases h : a.id = tid
      · rw [updateTaskById, if_pos h,
          List.find?_cons_of_pos _ (by simp [hf, h]),
          List.find?_cons_of_pos _ (by simpa using h)]
        rfl
      · rw [updateTaskById, if_neg h,
          List.find?_cons_of_neg _ (by simp [hf, h]),
          List.find?_cons_of_neg _ (by simpa using h)]
        exact ih

/-- A task that is neither PENDING nor READY is untouched by the skip
scan. -/
theorem find?_markSkippedGo_frozen (failed tid : String) (fuel i : Nat)
    (l : List BeeScriptTask) (t' : BeeScriptTask)
    (hfind : l.find? (fun u => u.id = tid) = some t')
    (hstat : ¬(t'.status = TaskStatus.PENDING ∨
        t'.status = TaskStatus.READY)) :
    (markSkippedGo failed fuel i l).find? (fun u => u.id = tid) = some t' := by
  rcases find?_skipOnly failed tid (markSkippedGo_skipOnly failed fuel i l)
    with ⟨h1, _⟩ | ⟨u, u', hu, hu', hrel⟩
  · rw [hfind] at h1; cases h1
  · rw [hfind, Option.some.injEq] at hu
    subst hu
    rcases hrel with rfl | ⟨-, hs, -⟩
    · exact hu'
    · exact absurd hs hstat

/-- The full effect of `mark_task_failed` on the failed task itself, plus
the cost bookkeeping: the task's `retry_count` is incremented before the
`retry_count >= retry_max` comparison, and the cascade never touches the
(now FAILED) task. -/
theorem mark_task_failed_find (script : BeeScript) (tid err : String)
    (cost : Int) (t : BeeScriptTask)
    (hfind : find_task_by_id script tid = some t) :
    find_task_by_id (mark_task_failed script tid err cost) tid =
      some { t with
               retry_count := t.retry_count + 1
               error_message := some err
               actual_cost := t.actual_cost + cost
               status :=
                 if t.retry_max ≤ t.retry_count + 1 then TaskStatus.FAILED
                 else TaskStatus.PENDING } ∧
    (mark_task_failed script tid err cost).total_cost =
      script.total_cost + cost := by
  have hf : ∀ u : BeeScriptTask,
      ({ u with
           retry_count := u.retry_count + 1
           error_message := some err
           actual_cost := u.actual_cost + cost
           status :=
             if u.retry_max ≤ u.retry_count + 1 then TaskStatus.FAILED
             else TaskStatus.PENDING } : BeeScriptTask).id = u.id :=
    fun _ => rfl
  have hbase := find?_updateTaskById tid _ hf script.subtasks
  rw [show script.subtasks.find? (fun u => u.id = tid) = some t from hfind,
    Option.map_some'] at hbase
  simp only [mark_task_failed, hfind]
  by_cases hb : t.retry_max ≤ t.retry_count + 1
  · rw [if_pos hb]
    refine ⟨?_, rfl⟩
    simp only [mark_dependents_skipped, find_task_by_id]
    exact find?_markSkippedGo_frozen tid tid _ 0 _ _ hbase (by simp [hb])
  · rw [if_neg hb]
    exact ⟨hbase, rfl⟩

/-- A scan for a failed id no task depends on changes nothing. -/
theorem markSkippedGo_no_match (failed : String) :
    ∀ (fuel i : Nat) (l : List BeeScriptTask),
      (∀ t ∈ l, failed ∉ t.after) → markSkippedGo failed fuel i l = l := by
  intro fuel
  induction fuel with
  | zero => intro i l _; rfl
  | succ fuel ih =>
      intro i l h
      rw [markSkippedGo]
      cases hl : l[i]? with
      | none => rfl
      | some t =>
          dsimp only
          rw [if_neg]
          · exact ih (i + 1) l h
          · rintro ⟨hm, -⟩
            exact h t (List.getElem?_mem hl) hm

/-- One failure of the only task of a one-task script (no dependents, so
the cascade is a no-op). -/
theorem mark_task_failed_single (g : String) (b tm tot : Int)
    (stg err tid : String) (u : BeeScriptTask) (hid : u.id = tid)
    (hafter : u.after = []) :
    mark_task_failed
        { goal := g, budget_credits := b, timeout_minutes := tm,
          subtasks := [u], total_cost := tot, status := stg } tid err 0 =
      { goal := g, budget_credits := b, timeout_minutes := tm,
        subtasks :=
          [{ u with
               retry_count := u.retry_count + 1
               error_message := some err
               actual_cost := u.actual_cost + 0
               status :=
                 if u.retry_max ≤ u.retry_count + 1 then TaskStatus.FAILED
                 else TaskStatus.PENDING }],
        total_cost := tot + 0, status := stg } := by
  have hfind : find_task_by_id
      { goal := g, budget_credits := b, timeout_minutes := tm,
        subtasks := [u], total_cost := tot, status := stg } tid = some u := by
    simp [find_task_by_id, List.find?_cons_of_pos, hid]
  simp only [mark_task_failed, hfind]
  have hupd :
      updateTaskById tid
          (fun v : BeeScriptTask =>
            { v with
                retry_count := v.retry_count + 1
                error_message := some err
                actual_cost := v.actual_cost + 0
                status :=
                  if v.retry_max ≤ v.retry_count + 1 then TaskStatus.FAILED
                  else TaskStatus.PENDING }) [u] =
        [{ u with
             retry_count := u.retry_count + 1
             error_message := some err
             actual_cost := u.actual_cost + 0
             status :=
               if u.retry_max ≤ u.retry_count + 1 then TaskStatus.FAILED
               else TaskStatus.PENDING }] := by
    rw [updateTaskById, if_pos hid]
  by_cases hb : u.retry_max ≤ u.retry_count + 1
  · rw [if_pos hb]
    simp only [mark_dependents_skipped, hupd]
    congr 1
    refine markSkippedGo_no_match tid _ 0 _ ?_
    intro t ht
    simp only [List.mem_singleton] at ht
    subst ht
    simp [hafter]
  · rw [if_neg hb, hupd]

/-- Iterating failures on a fresh one-task script: after `n ≥ 1` failures
the task has `retry_count = n` and is FAILED exactly when
`retry_max ≤ n`. -/
theorem iterateFailures_single (g : String) (b tm tot : Int)
    (stg : String) (t0 : BeeScriptTask) (err : String)
    (hafter : t0.after = []) (hcount : t0.retry_count = 0) :
    ∀ n : Nat, 1 ≤ n →
      iterateFailures
          { goal := g, budget_credits := b, timeout_minutes := tm,
            subtasks := [t0], total_cost := tot, status := stg }
          t0.id err n =
        { goal := g, budget_credits := b, timeout_minutes := tm,
          subtasks :=
            [{ t0 with
                 retry_count := (n : Int)
                 error_message := some err
                 actual_cost := t0.actual_cost
                 status :=
                   if t0.retry_max ≤ (n : Int) then TaskStatus.FAILED
                   else TaskStatus.PENDING }],
          total_cost := tot, status := stg } := by
  intro n
  induction n with
  | zero => intro h; exact absurd h (by norm_num)
  | succ n ih =>
      intro _
      rcases Nat.eq_zero_or_pos n with hn0 | hn1
      · subst hn0
        rw [iterateFailures, iterateFailures,
          mark_task_failed_single g b tm tot stg err t0.id t0 rfl hafter]
        simp [hcount]
      · rw [iterateFailures, ih hn1,
          mark_task_failed_single g b tm tot stg err t0.id
            { t0 with
                retry_count := (n : Int)
                error_message := some err
                actual_cost := t0.actual_cost
                status :=
                  if t0.retry_max ≤ (n : Int) then TaskStatus.FAILED
                  else TaskStatus.PENDING }
            rfl hafter]
        have hc : ((n + 1 : Nat) : Int) = (n : Int) + 1 := by push_cast; ring
        rw [hc]
        simp

/-! ## Claim C1 -/

/-- C1 — the failure cascade is NOT transitive, although task `"a"` lies in
the transitive dependency closure of `"c"`: after `"a"` exhausts its
retries (two failures at `retry_max = 2`), the direct dependent `"b"` is
SKIPPED but the transitive dependent `"c"` stays PENDING.  The inner
`mark_skipped` of `_mark_dependents_skipped` ignores its parameter and
always re-tests `failed_task_id in task.after`, so the recursive call
`mark_skipped(task.id)` never descends — contradicting the function's own
docstring and its `# Recursively skip dependents` comment. -/
theorem c1_cascade_code_bug :
    statusOf chainAfterFailures "a" = some TaskStatus.FAILED ∧
    statusOf chainAfterFailures "b" = some TaskStatus.SKIPPED ∧
    statusOf chainAfterFailures "c" = some TaskStatus.PENDING ∧
    Relation.TransGen (GEdge (taskGraph chainScript.subtasks)) "c" "a" :=
  ⟨rfl, rfl, rfl,
    Relation.TransGen.head
      (show "b" ∈ nbrs (taskGraph chainScript.subtasks) "c" by decide)
      (Relation.TransGen.single
        (show "a" ∈ nbrs (taskGraph chainScript.subtasks) "b" by decide))⟩

/-! ## Claim C2 -/

/-- C2 counterexample — a task with pre-call `retryCount = 1` strictly less
than `retryMax = 2` does NOT go back to PENDING: the source increments
first and compares `retry_count >= retry_max` afterwards, so the task ends
FAILED. -/
theorem c2_retry_threshold_counterexample :
    ((1 : Int) < 2) ∧
    statusOf (mark_task_failed
        { goal := "g", budget_credits := 100,
          subtasks := [{ id := "t", agent := "w", task := "k",
                         retry_max := 2, retry_count := 1 }] }
        "t" "boom" 0) "t" = some TaskStatus.FAILED ∧
    TaskStatus.FAILED ≠ TaskStatus.PENDING :=
  ⟨by norm_num, rfl, by decide⟩

/-- C2 amended — `mark_task_failed` increments `retry_count` and only then
compares with `retry_max`: the task returns to PENDING iff
`retryCount + 1 < retryMax` (pre-call count `< retryMax - 1`) and becomes
FAILED iff `retryCount + 1 ≥ retryMax`; hence a fresh task (`retryCount =
0`) with `retryMax = r` is FAILED after `n ≥ 1` failed attempts exactly
when `r ≤ n`, i.e. it takes `max(r, 1)` failed attempts, not `r + 1`. -/
theorem c2_retry_threshold :
    (∀ (script : BeeScript) (tid err : String) (cost : Int)
        (t : BeeScriptTask), find_task_by_id script tid = some t →
        statusOf (mark_task_failed script tid err cost) tid =
          some (if t.retry_max ≤ t.retry_count + 1 then TaskStatus.FAILED
                else TaskStatus.PENDING) ∧
        (find_task_by_id (mark_task_failed script tid err cost) tid).map
            (fun u => u.retry_count) = some (t.retry_count + 1)) ∧
    (∀ (g : String) (b tm tot : Int) (stg : String) (t0 : BeeScriptTask)
        (err : String) (n : Nat), t0.after = [] → t0.retry_count = 0 →
        1 ≤ n →
        statusOf (iterateFailures
            { goal := g, budget_credits := b, timeout_minutes := tm,
              subtasks := [t0], total_cost := tot, status := stg }
            t0.id err n) t0.id =
          some (if t0.retry_max ≤ (n : Int) then TaskStatus.FAILED
                else TaskStatus.PENDING)) := by
  constructor
  · intro script tid err cost t hfind
    obtain ⟨hres, -⟩ := mark_task_failed_find script tid err cost t hfind
    refine ⟨?_, ?_⟩
    · rw [statusOf, hres, Option.map_some']
    · rw [hres, Option.map_some']
  · intro g b tm tot stg t0 err n hafter hcount hn
    rw [statusOf, iterateFailures_single g b tm tot stg t0 err hafter
      hcount n hn]
    rw [show find_task_by_id
        { goal := g, budget_credits := b, timeout_minutes := tm,
          subtasks :=
            [{ t0 with
                 retry_count := (n : Int)
                 error_message := some err
                 actual_cost := t0.actual_cost
                 status :=
                   if t0.retry_max ≤ (n : Int) then TaskStatus.FAILED
                   else TaskStatus.PENDING }],
          total_cost := tot, status := stg } t0.id =
      some { t0 with
               retry_count := (n : Int)
               error_message := some err
               actual_cost := t0.actual_cost
               status :=
                 if t0.retry_max ≤ (n : Int) then TaskStatus.FAILED
                 else TaskStatus.PENDING } from by
      simp [find_task_by_id, List.find?_cons_of_pos]]
    rw [Option.map_some']

/-- Witness for the amended C2: a fresh default task (`retry_max = 2`)
goes PENDING on its first failure and FAILED on its second. -/
theorem c2_retry_threshold_witness :
    statusOf (mark_task_failed
        { goal := "g", budget_credits := 100,
          subtasks := [{ id := "t", agent := "w", task := "k" }] }
        "t" "boom" 0) "t" = some TaskStatus.PENDING ∧
    statusOf (iterateFailures
        { goal := "g", budget_credits := 100,
          subtasks := [{ id := "t", agent := "w", task := "k" }] }
        "t" "boom" 2) "t" = some TaskStatus.FAILED := by
  have h1 := (c2_retry_threshold.1
    { goal := "g", budget_credits := 100,
      subtasks := [{ id := "t", agent := "w", task := "k" }] }
    "t" "boom" 0 { id := "t", agent := "w", task := "k" } rfl).1
  have h2 := c2_retry_threshold.2 "g" 100 10 0 "PENDING"
    { id := "t", agent := "w", task := "k" } "boom" 2 rfl rfl (by norm_num)
  constructor
  · simpa using h1
  · simpa using h2

/-! ## Claim C3 -/

/-- C3 counterexample — the ledger has balance `0`, far below the retry
cost `estimate_retry_cost 10 1 = 15`, yet a failing task with retries
remaining still transitions to PENDING, not FAILED: `mark_task_failed`
performs no budget check at all. -/
theorem c3_retry_gating_counterexample :
    CreditManager.check_budget
        { accounts :=
            [("s", { session_id := "s", initial_budget := 100,
                     current_balance := 0, total_spent := 100 })]
          transaction_counter := 0 } "s" (estimate_retry_cost 10 1) =
      false ∧
    estimate_retry_cost 10 1 = 15 ∧
    statusOf (mark_task_failed
        { goal := "g", budget_credits := 100,
          subtasks := [{ id := "t", agent := "w", task := "k",
                         cost_estimate := 10, retry_max := 3 }] }
        "t" "boom" 0) "t" = some TaskStatus.PENDING ∧
    TaskStatus.PENDING ≠ TaskStatus.FAILED :=
  ⟨rfl, rfl, rfl, by decide⟩

/-- C3 amended — `estimate_retry_cost` computes
`int(base_cost * 1.5 ** n)` (the floor of the exact rational), but nothing
consults it on the retry path: on a worker failure with retries remaining
the task becomes PENDING regardless of any ledger state, even when
`check_budget` reports the retry cost unaffordable. -/
theorem c3_no_retry_gating :
    (∀ (base : Int) (n : Nat),
        estimate_retry_cost base n = ⌊(base : ℚ) * (3 / 2) ^ n⌋) ∧
    (∀ (cm : CreditManager) (sid : String) (script : BeeScript)
        (tid err : String) (cost : Int) (t : BeeScriptTask),
        find_task_by_id script tid = some t →
        t.retry_count + 1 < t.retry_max →
        cm.check_budget sid
            (estimate_retry_cost t.cost_estimate
              (t.retry_count + 1).toNat) = false →
        statusOf (mark_task_failed script tid err cost) tid =
          some TaskStatus.PENDING) := by
  constructor
  · intro base n
    have hcast : ((base : ℚ) * (3 / 2) ^ n) =
        ((base * 3 ^ n : Int) : ℚ) / ((2 ^ n : ℕ) : ℚ) := by
      rw [div_pow]
      push_cast
      ring
    rw [estimate_retry_cost, hcast, Rat.floor_intCast_div_natCast]
    push_cast
    ring_nf
  · intro cm sid script tid err cost t hfind hretry _
    obtain ⟨hres, -⟩ := mark_task_failed_find script tid err cost t hfind
    rw [statusOf, hres, Option.map_some', if_neg (by omega)]

/-- Witness for the amended C3: the 15-credit retry cost formula at
`base = 10, n = 1`, and a concrete zero-balance ledger that still sees the
failing task return to PENDING. -/
theorem c3_no_retry_gating_witness :
    estimate_retry_cost 10 1 = ⌊((10 : Int) : ℚ) * (3 / 2) ^ (1 : Nat)⌋ ∧
    statusOf (mark_task_failed
        { goal := "g", budget_credits := 100,
          subtasks := [{ id := "t", agent := "w", task := "k",
                         cost_estimate := 10, retry_max := 3 }] }
        "t" "oops" 0) "t" = some TaskStatus.PENDING :=
  ⟨c3_no_retry_gating.1 10 1,
    c3_no_retry_gating.2
      { accounts :=
          [("s", { session_id := "s", initial_budget := 100,
                   current_balance := 0, total_spent := 100 })]
        transaction_counter := 0 } "s"
      { goal := "g", budget_credits := 100,
        subtasks := [{ id := "t", agent := "w", task := "k",
                       cost_estimate := 10, retry_max := 3 }] }
      "t" "oops" 0
      { id := "t", agent := "w", task := "k",
        cost_estimate := 10, retry_max := 3 }
      rfl (by norm_num) rfl⟩

/-! ## Claim C5 -/

/-- C5 counterexample — the runtime total is NOT capped by the budget:
`can_execute_task` passes (estimate 5 fits in budget 10), but
`mark_task_completed` adds the *reported* actual cost unchecked, so an
actual cost of 20 drives `total_cost` to 20 > 10. -/
theorem c5_budget_overrun_counterexample :
    can_execute_task
        { goal := "g", budget_credits := 10,
          subtasks := [{ id := "t", agent := "w", task := "k",
                         cost_estimate := 5 }] }
        { id := "t", agent := "w", task := "k", cost_estimate := 5 } =
      true ∧
    (mark_task_completed
        { goal := "g", budget_credits := 10,
          subtasks := [{ id := "t", agent := "w", task := "k",
                         cost_estimate := 5 }] }
        "t" 20).total_cost = 20 ∧
    ¬((mark_task_completed
        { goal := "g", budget_credits := 10,
          subtasks := [{ id := "t", agent := "w", task := "k",
                         cost_estimate := 5 }] }
        "t" 20).total_cost ≤ (10 : Int)) :=
  ⟨rfl, rfl, by decide⟩

/-- C5 amended — the runtime invariant `total_cost ≤ budget_credits` is
preserved by `mark_task_completed` and `mark_task_failed` only under the
extra premise that the charged `actual_cost` does not exceed the guarded
task's `cost_estimate`; the guard `can_execute_task` alone checks just the
estimate. -/
theorem c5_budget_invariant_guarded (script : BeeScript) (tid err : String)
    (t : BeeScriptTask) (actual : Int)
    (hfind : find_task_by_id script tid = some t)
    (hguard : can_execute_task script t = true)
    (hactual : actual ≤ t.cost_estimate) :
    (mark_task_completed script tid actual).total_cost ≤
      script.budget_credits ∧
    (mark_task_failed script tid err actual).total_cost ≤
      script.budget_credits := by
  have hbudget :
      script.total_cost + t.cost_estimate ≤ script.budget_credits := by
    by_contra hc
    push_neg at hc
    simp [can_execute_task, if_pos hc] at hguard
  constructor
  · simp only [mark_task_completed, hfind]
    omega
  · rw [(mark_task_failed_find script tid err actual t hfind).2]
    omega

/-- Witness for the amended C5: budget 10, estimate 5, actual cost 5. -/
theorem c5_budget_invariant_guarded_witness :
    (mark_task_completed
        { goal := "g", budget_credits := 10,
          subtasks := [{ id := "t", agent := "w", task := "k",
                         cost_estimate := 5 }] }
        "t" 5).total_cost ≤ (10 : Int) ∧
    (mark_task_failed
        { goal := "g", budget_credits := 10,
          subtasks := [{ id := "t", agent := "w", task := "k",
                         cost_estimate := 5 }] }
        "t" "e" 5).total_cost ≤ (10 : Int) :=
  c5_budget_invariant_guarded
    { goal := "g", budget_credits := 10,
      subtasks := [{ id := "t", agent := "w", task := "k",
                     cost_estimate := 5 }] }
    "t" "e" { id := "t", agent := "w", task := "k", cost_estimate := 5 }
    5 rfl rfl (by norm_num)

/-! ## Lemmas about the three-colour DFS of `_has_circular_dependencies` -/

theorem setSt_self (st : DfsState) (n : String) (v : Nat) :
    setSt st n v n = v := by
  simp [setSt]

theorem setSt_ne (st : DfsState) (n m : String) (v : Nat) (h : m ≠ n) :
    setSt st n v m = st m := by
  simp [setSt, h]

theorem mem_dedupKeys : ∀ (l seen : List String) (x : String),
    x ∈ dedupKeys l seen ↔ x ∈ l ∧ x ∉ seen := by
  intro l
  induction l with
  | nil => intro seen x; simp [dedupKeys]
  | cons k ks ih =>
      intro seen x
      rw [dedupKeys]
      by_cases hk : k ∈ seen
      · rw [if_pos hk, ih]
        simp only [List.mem_cons]
        constructor
        · rintro ⟨hx, hs⟩
          exact ⟨Or.inr hx, hs⟩
        · rintro ⟨hx | hx, hs⟩
          · exact absurd (by rw [hx]; exact hk) hs
          · exact ⟨hx, hs⟩
      · rw [if_neg hk, List.mem_cons, ih]
        simp only [List.mem_cons]
        constructor
        · rintro (rfl | ⟨hx, hs⟩)
          · exact ⟨Or.inl rfl, hk⟩
          · exact ⟨Or.inr hx, fun h => hs (Or.inr h)⟩
        · rintro ⟨hx | hx, hs⟩
          · exact Or.inl hx
          · by_cases hxk : x = k
            · exact Or.inl hxk
            · refine Or.inr ⟨hx, ?_⟩
              rintro (h | h)
              · exact hxk h
              · exact hs h

theorem nodup_dedupKeys : ∀ (l seen : List String),
    (dedupKeys l seen).Nodup := by
  intro l
  induction l with
  | nil => intro seen; simp [dedupKeys]
  | cons k ks ih =>
      intro seen
      rw [dedupKeys]
      by_cases hk : k ∈ seen
      · rw [if_pos hk]; exact ih seen
      · rw [if_neg hk]
        refine List.nodup_cons.mpr ⟨?_, ih (k :: seen)⟩
        intro hmem
        rcases (mem_dedupKeys ks (k :: seen) k).mp hmem with ⟨-, habs⟩
        exact habs (List.mem_cons_self k seen)

theorem length_dedupKeys_le : ∀ (l seen : List String),
    (dedupKeys l seen).length ≤ l.length := by
  intro l
  induction l with
  | nil => intro seen; simp [dedupKeys]
  | cons k ks ih =>
      intro seen
      rw [dedupKeys]
      by_cases hk : k ∈ seen
      · rw [if_pos hk]
        exact Nat.le_succ_of_le (ih seen)
      · rw [if_neg hk]
        simpa using Nat.succ_le_succ (ih (k :: seen))

theorem mem_dictKeys (g : List (String × List String)) (x : String) :
    x ∈ dictKeys g ↔ x ∈ g.map Prod.fst := by
  rw [dictKeys, mem_dedupKeys]
  simp

theorem nodup_dictKeys (g : List (String × List String)) :
    (dictKeys g).Nodup :=
  nodup_dedupKeys _ _

theorem count0_lt_fuel (g : List (String × List String)) (st : DfsState) :
    count0 g st < g.length + 1 := by
  have h1 : count0 g st ≤ (dictKeys g).length :=
    List.length_filter_le _ _
  have h2 : (dictKeys g).length ≤ g.length := by
    have := length_dedupKeys_le (g.map Prod.fst) []
    simpa [dictKeys] using this
  omega

theorem count0_mono (g : List (String × List String)) {st st' : DfsState}
    (h : ∀ m, st' m = 0 → st m = 0) : count0 g st' ≤ count0 g st := by
  rw [count0, count0, ← List.countP_eq_length_filter,
    ← List.countP_eq_length_filter]
  refine List.countP_mono_left fun k _ hk => ?_
  simp only [decide_eq_true_eq] at hk ⊢
  exact h k hk

theorem filter_length_lt_of_flip :
    ∀ (l : List String) (st : DfsState) (n : String), l.Nodup → n ∈ l →
      st n = 0 →
      (l.filter fun k => setSt st n 1 k = 0).length <
        (l.filter fun k => st k = 0).length := by
  intro l
  induction l with
  | nil => intro st n _ hn; cases hn
  | cons a l ih =>
      intro st n hnodup hn h0
      rcases List.mem_cons.mp hn with rfl | hn'
      · have hnotin := (List.nodup_cons.mp hnodup).1
        have heq : ∀ k ∈ l,
            (decide (setSt st n 1 k = 0)) = decide (st k = 0) := by
          intro k hk
          rw [setSt_ne st n k 1 (fun hkn => hnotin (hkn ▸ hk))]
        rw [List.filter_cons, List.filter_cons, List.filter_congr heq]
        simp [setSt_self, h0]
      · have hrec := ih st n (List.nodup_cons.mp hnodup).2 hn' h0
        have hne : a ≠ n := fun han =>
          (List.nodup_cons.mp hnodup).1 (han ▸ hn')
        rw [List.filter_cons, List.filter_cons, setSt_ne st n a 1 hne]
        cases hcond : (decide (st a = 0)) <;> simp [hcond] <;> omega

theorem count0_set1_lt (g : List (String × List String)) (st : DfsState)
    (n : String) (hn : n ∈ dictKeys g) (h0 : st n = 0) :
    count0 g (setSt st n 1) < count0 g st := by
  rw [count0, count0]
  exact filter_length_lt_of_flip (dictKeys g) st n (nodup_dictKeys g) hn h0

theorem st3_setSt {st : DfsState} (h3 : St3 st) (n : String) (v : Nat)
    (hv : v = 0 ∨ v = 1 ∨ v = 2) : St3 (setSt st n v) := by
  intro m
  by_cases hm : m = n
  · rw [hm, setSt_self]; exact hv
  · rw [setSt_ne st n m v hm]; exact h3 m

/-- The DFS only recolours white (state-0) nodes and keeps the state map
three-coloured. -/
theorem dfs_frame (g : List (String × List String)) :
    ∀ (fuel : Nat) (st : DfsState) (n : String), St3 st →
      St3 (dfs g fuel st n).2 ∧
      (∀ m, st m ≠ 0 → (dfs g fuel st n).2 m = st m) := by
  intro fuel
  induction fuel with
  | zero => intro st n h3; exact ⟨h3, fun m _ => rfl⟩
  | succ fuel ih =>
      intro st n h3
      rw [dfs]
      by_cases h1 : st n = 1
      · rw [if_pos h1]; exact ⟨h3, fun m _ => rfl⟩
      · rw [if_neg h1]
        by_cases h2 : st n = 2
        · rw [if_pos h2]; exact ⟨h3, fun m _ => rfl⟩
        · rw [if_neg h2]
          have hn0 : st n = 0 := by rcases h3 n with h | h | h <;> tauto
          have hfold : ∀ (l : List String) (acc : Bool × DfsState),
              St3 acc.2 →
              St3 (l.foldl
                (fun acc b => if acc.1 then acc else dfs g fuel acc.2 b)
                acc).2 ∧
              (∀ m, acc.2 m ≠ 0 →
                (l.foldl
                  (fun acc b => if acc.1 then acc else dfs g fuel acc.2 b)
                  acc).2 m = acc.2 m) := by
            intro l
            induction l with
            | nil => intro acc hacc; exact ⟨hacc, fun m _ => rfl⟩
            | cons b rest ihl =>
                intro acc hacc
                rw [List.foldl_cons]
                by_cases hflag : acc.1 = true
                · rw [if_pos hflag]
                  exact ihl acc hacc
                · rw [if_neg hflag]
                  obtain ⟨hst3, hfr⟩ := ih acc.2 b hacc
                  obtain ⟨hst3', hfr'⟩ := ihl (dfs g fuel acc.2 b) hst3
                  refine ⟨hst3', ?_⟩
                  intro m hm
                  rw [hfr' m (by rw [hfr m hm]; exact hm), hfr m hm]
          obtain ⟨hA, hB⟩ := hfold (nbrs g n) (false, setSt st n 1)
            (st3_setSt h3 n 1 (Or.inr (Or.inl rfl)))
          cases hres : (nbrs g n).foldl
              (fun acc b => if acc.1 then acc else dfs g fuel acc.2 b)
              (false, setSt st n 1) with
          | mk flag st2 =>
              rw [hres] at hA hB
              dsimp only at hA hB
              cases flag
              · dsimp only
                refine ⟨st3_setSt hA n 2 (Or.inr (Or.inr rfl)), ?_⟩
                intro m hm
                have hmn : m ≠ n := fun h => hm (h ▸ hn0)
                rw [setSt_ne st2 n m 2 hmn]
                rw [hB m (by rw [setSt_ne st n m 1 hmn]; exact hm),
                  setSt_ne st n m 1 hmn]
              · dsimp only
                refine ⟨hA, ?_⟩
                intro m hm
                have hmn : m ≠ n := fun h => hm (h ▸ hn0)
                rw [hB m (by rw [setSt_ne st n m 1 hmn]; exact hm),
                  setSt_ne st n m 1 hmn]

/-- Once the flag is set, the neighbour fold is the identity (the Python
loop has returned). -/
theorem dfsFold_skip (g : List (String × List String)) (fuel : Nat) :
    ∀ (l : List String) (acc : Bool × DfsState), acc.1 = true →
      l.foldl (fun acc b => if acc.1 then acc else dfs g fuel acc.2 b) acc =
        acc := by
  intro l
  induction l with
  | nil => intro acc _; rfl
  | cons b rest ih =>
      intro acc hacc
      rw [List.foldl_cons, if_pos hacc]
      exact ih acc hacc

/-- The neighbour fold recolours only white nodes. -/
theorem dfsFold_frame (g : List (String × List String)) (fuel : Nat) :
    ∀ (l : List String) (acc : Bool × DfsState), St3 acc.2 →
      St3 ((l.foldl
        (fun acc b => if acc.1 then acc else dfs g fuel acc.2 b) acc).2) ∧
      (∀ m, acc.2 m ≠ 0 →
        (l.foldl
          (fun acc b => if acc.1 then acc else dfs g fuel acc.2 b)
            acc).2 m = acc.2 m) := by
  intro l
  induction l with
  | nil => intro acc hacc; exact ⟨hacc, fun m _ => rfl⟩
  | cons b rest ih =>
      intro acc hacc
      rw [List.foldl_cons]
      by_cases hflag : acc.1 = true
      · rw [if_pos hflag]
        exact ih acc hacc
      · rw [if_neg hflag]
        obtain ⟨hst3, hfr⟩ := dfs_frame g fuel acc.2 b hacc
        obtain ⟨hst3', hfr'⟩ := ih (dfs g fuel acc.2 b) hst3
        refine ⟨hst3', ?_⟩
        intro m hm
        rw [hfr' m (by rw [hfr m hm]; exact hm), hfr m hm]

theorem dfs_count0_le (g : List (String × List String)) (fuel : Nat)
    (st : DfsState) (n : String) (h3 : St3 st) :
    count0 g (dfs g fuel st n).2 ≤ count0 g st := by
  refine count0_mono g fun m hm => ?_
  by_contra h
  rw [(dfs_frame g fuel st n h3).2 m h] at hm
  exact h hm

theorem dfsFold_count0_le (g : List (String × List String)) (fuel : Nat)
    (l : List String) (acc : Bool × DfsState) (hacc : St3 acc.2) :
    count0 g
        ((l.foldl
          (fun acc b => if acc.1 then acc else dfs g fuel acc.2 b)
            acc).2) ≤ count0 g acc.2 := by
  refine count0_mono g fun m hm => ?_
  by_contra h
  rw [(dfsFold_frame g fuel l acc hacc).2 m h] at hm
  exact h hm

/-- Completeness invariant: when the DFS returns `False` from `n`, the node
`n` is black, the set of grey nodes is unchanged, and blackness still
implies cycle-safety. -/
theorem dfs_false (g : List (String × List String))
    (hclosed : ClosedGraph g) :
    ∀ (fuel : Nat) (st : DfsState) (n : String), St3 st →
      n ∈ dictKeys g → count0 g st < fuel →
      (dfs g fuel st n).1 = false →
      (dfs g fuel st n).2 n = 2 ∧
      (∀ m, (dfs g fuel st n).2 m = 1 ↔ st m = 1) ∧
      (Safe2 g st → Safe2 g (dfs g fuel st n).2) := by
  intro fuel
  induction fuel with
  | zero => intro st n _ _ hc; omega
  | succ fuel ih =>
      intro st n h3 hn hcount hfalse
      rw [dfs] at hfalse ⊢
      by_cases h1 : st n = 1
      · rw [if_pos h1] at hfalse; simp at hfalse
      · rw [if_neg h1] at hfalse ⊢
        by_cases h2 : st n = 2
        · rw [if_pos h2] at hfalse ⊢
          exact ⟨h2, fun m => Iff.rfl, fun hs => hs⟩
        · rw [if_neg h2] at hfalse ⊢
          have hn0 : st n = 0 := by rcases h3 n with h | h | h <;> tauto
          have hst1 : St3 (setSt st n 1) :=
            st3_setSt h3 n 1 (Or.inr (Or.inl rfl))
          have hcount1 : count0 g (setSt st n 1) < fuel := by
            have := count0_set1_lt g st n hn hn0
            omega
          have hfold : ∀ (l : List String) (acc : Bool × DfsState),
              (∀ b ∈ l, b ∈ dictKeys g) → St3 acc.2 →
              count0 g acc.2 < fuel →
              (l.foldl
                (fun acc b => if acc.1 then acc else dfs g fuel acc.2 b)
                acc).1 = false →
              acc.1 = false ∧
              (∀ b ∈ l,
                (l.foldl
                  (fun acc b => if acc.1 then acc else dfs g fuel acc.2 b)
                    acc).2 b = 2) ∧
              (∀ m,
                (l.foldl
                  (fun acc b => if acc.1 then acc else dfs g fuel acc.2 b)
                    acc).2 m = 1 ↔ acc.2 m = 1) ∧
              (Safe2 g acc.2 →
                Safe2 g
                  ((l.foldl
                    (fun acc b => if acc.1 then acc else dfs g fuel acc.2 b)
                      acc).2)) := by
            intro l
            induction l with
            | nil =>
                intro acc _ _ _ hres
                exact ⟨hres, by simp, fun m => Iff.rfl, fun hs => hs⟩
            | cons b rest ihl =>
                intro acc hbks hacc hcnt hres
                rw [List.foldl_cons] at hres ⊢
                by_cases hflag : acc.1 = true
                · rw [if_pos hflag] at hres
                  rw [dfsFold_skip g fuel rest acc hflag] at hres
                  rw [hflag] at hres
                  cases hres
                · rw [if_neg hflag] at hres ⊢
                  by_cases hflag' : (dfs g fuel acc.2 b).1 = true
                  · rw [dfsFold_skip g fuel rest _ hflag'] at hres
                    rw [hflag'] at hres
                    cases hres
                  · rw [Bool.not_eq_true] at hflag hflag'
                    obtain ⟨hb2, hbiff, hbsafe⟩ :=
                      ih acc.2 b hacc (hbks b (List.mem_cons_self b rest))
                        hcnt hflag'
                    obtain ⟨hfr3, hfr⟩ :=
                      dfs_frame g fuel acc.2 b hacc
                    have hcnt' :
                        count0 g (dfs g fuel acc.2 b).2 < fuel :=
                      lt_of_le_of_lt (dfs_count0_le g fuel acc.2 b hacc) hcnt
                    obtain ⟨-, hrest2, hrestiff, hrestsafe⟩ :=
                      ihl (dfs g fuel acc.2 b)
                        (fun c hc => hbks c (List.mem_cons_of_mem b hc))
                        hfr3 hcnt' hres
                    refine ⟨hflag, ?_, ?_, ?_⟩
                    · intro c hc
                      rcases List.mem_cons.mp hc with rfl | hc'
                      · obtain ⟨hfr3', hfr'⟩ :=
                          dfsFold_frame g fuel rest (dfs g fuel acc.2 c)
                            hfr3
                        rw [hfr' c (by rw [hb2]; decide)]
                        exact hb2
                      · exact hrest2 c hc'
                    · intro m
                      rw [hrestiff m, hbiff m]
                    · intro hs
                      exact hrestsafe (hbsafe hs)
          have hallk : ∀ b ∈ nbrs g n, b ∈ dictKeys g := by
            intro b hb
            exact hclosed n b hb
          cases hres : (nbrs g n).foldl
              (fun acc b => if acc.1 then acc else dfs g fuel acc.2 b)
              (false, setSt st n 1) with
          | mk flag st2 =>
              cases flag
              · dsimp only at hfalse ⊢
                obtain ⟨-, hnb2, hiff, hsafe⟩ :=
                  hfold (nbrs g n) (false, setSt st n 1) hallk hst1 hcount1
                    (by rw [hres])
                rw [hres] at hnb2 hiff hsafe
                dsimp only at hnb2 hiff hsafe
                refine ⟨setSt_self st2 n 2, ?_, ?_⟩
                · intro m
                  by_cases hm : m = n
                  · subst hm
                    rw [setSt_self]
                    constructor
                    · intro h; cases h
                    · intro h; rw [hn0] at h; cases h
                  · rw [setSt_ne st2 n m 2 hm, hiff m,
                      setSt_ne st n m 1 hm]
                · intro hsafe0
                  have hsafe1 : Safe2 g (setSt st n 1) := by
                    intro m hm
                    by_cases hmn : m = n
                    · rw [hmn, setSt_self] at hm; cases hm
                    · rw [setSt_ne st n m 1 hmn] at hm
                      exact hsafe0 m hm
                  have hsafe2 : Safe2 g st2 := hsafe hsafe1
                  intro m hm
                  by_cases hmn : m = n
                  · subst hmn
                    rintro ⟨x, hpath, hcyc⟩
                    rcases Relation.ReflTransGen.cases_head hpath with
                      rfl | ⟨c, hnc, hcx⟩
                    · rcases Relation.TransGen.head'_iff.mp hcyc with
                        ⟨b, hnb, hbn⟩
                      exact hsafe2 b (hnb2 b hnb) ⟨m, hbn, hcyc⟩
                    · exact hsafe2 c (hnb2 c hnc) ⟨x, hcx, hcyc⟩
                  · rw [setSt_ne st2 n m 2 hmn] at hm
                    exact hsafe2 m hm
              · rw [hres] at hfalse
                exact Bool.noConfusion hfalse

/-- Soundness invariant: a `True` answer witnesses a cycle — every grey
node reaches the node under visit, so an edge into a grey node closes a
cycle. -/
theorem dfs_true (g : List (String × List String))
    (hclosed : ClosedGraph g) :
    ∀ (fuel : Nat) (st : DfsState) (n : String), St3 st →
      n ∈ dictKeys g → count0 g st < fuel →
      (∀ m, st m = 1 → Relation.ReflTransGen (GEdge g) m n) →
      (st n = 1 → HasCycle g) →
      (dfs g fuel st n).1 = true → HasCycle g := by
  intro fuel
  induction fuel with
  | zero => intro st n _ _ hc; omega
  | succ fuel ih =>
      intro st n h3 hn hcount hreach hself htrue
      rw [dfs] at htrue
      by_cases h1 : st n = 1
      · exact hself h1
      · rw [if_neg h1] at htrue
        by_cases h2 : st n = 2
        · rw [if_pos h2] at htrue
          exact Bool.noConfusion htrue
        · rw [if_neg h2] at htrue
          have hn0 : st n = 0 := by rcases h3 n with h | h | h <;> tauto
          have hst1 : St3 (setSt st n 1) :=
            st3_setSt h3 n 1 (Or.inr (Or.inl rfl))
          have hcount1 : count0 g (setSt st n 1) < fuel := by
            have := count0_set1_lt g st n hn hn0
            omega
          have hfold : ∀ (l : List String) (acc : Bool × DfsState),
              (∀ b ∈ l, b ∈ dictKeys g) → St3 acc.2 →
              count0 g acc.2 < fuel →
              (acc.1 = false →
                (∀ m, acc.2 m = 1 →
                  Relation.ReflTransGen (GEdge g) m n) ∧ acc.2 n = 1) →
              (∀ b ∈ l, GEdge g n b) →
              (l.foldl
                (fun acc b => if acc.1 then acc else dfs g fuel acc.2 b)
                acc).1 = true →
              acc.1 = true ∨ HasCycle g := by
            intro l
            induction l with
            | nil => intro acc _ _ _ _ _ hres; exact Or.inl hres
            | cons b rest ihl =>
                intro acc hbks hacc hcnt hpre hedges hres
                by_cases hflag : acc.1 = true
                · exact Or.inl hflag
                · rw [List.foldl_cons, if_neg hflag] at hres
                  rw [Bool.not_eq_true] at hflag
                  obtain ⟨hreach', hgrey⟩ := hpre hflag
                  have hbk : b ∈ dictKeys g :=
                    hbks b (List.mem_cons_self b rest)
                  have hedge : GEdge g n b :=
                    hedges b (List.mem_cons_self b rest)
                  by_cases hb : (dfs g fuel acc.2 b).1 = true
                  · refine Or.inr (ih acc.2 b hacc hbk hcnt ?_ ?_ hb)
                    · intro m hm
                      exact Relation.ReflTransGen.tail (hreach' m hm) hedge
                    · intro hb1
                      exact ⟨b,
                        Relation.TransGen.tail' (hreach' b hb1) hedge⟩
                  · rw [Bool.not_eq_true] at hb
                    obtain ⟨-, hbiff, -⟩ :=
                      dfs_false g hclosed fuel acc.2 b hacc hbk hcnt hb
                    have hfr3 := (dfs_frame g fuel acc.2 b hacc).1
                    have hcnt' :
                        count0 g (dfs g fuel acc.2 b).2 < fuel :=
                      lt_of_le_of_lt (dfs_count0_le g fuel acc.2 b hacc)
                        hcnt
                    rcases ihl (dfs g fuel acc.2 b)
                        (fun c hc => hbks c (List.mem_cons_of_mem b hc))
                        hfr3 hcnt'
                        (fun _ => ⟨fun m hm =>
                            hreach' m ((hbiff m).mp hm),
                          (hbiff n).mpr hgrey⟩)
                        (fun c hc => hedges c (List.mem_cons_of_mem b hc))
                        hres with
                      hcase | hcase
                    · rw [hb] at hcase
                      exact Bool.noConfusion hcase
                    · exact Or.inr hcase
          cases hres : (nbrs g n).foldl
              (fun acc b => if acc.1 then acc else dfs g fuel acc.2 b)
              (false, setSt st n 1) with
          | mk flag st2 =>
              cases flag
              · rw [hres] at htrue
                exact Bool.noConfusion htrue
              · have hpre : (false : Bool) = false →
                    (∀ m, setSt st n 1 m = 1 →
                      Relation.ReflTransGen (GEdge g) m n) ∧
                    setSt st n 1 n = 1 := by
                  intro _
                  refine ⟨?_, setSt_self st n 1⟩
                  intro m hm
                  by_cases hmn : m = n
                  · rw [hmn]
                  · rw [setSt_ne st n m 1 hmn] at hm
                    exact hreach m hm
                rcases hfold (nbrs g n) (false, setSt st n 1)
                    (fun b hb => hclosed n b hb) hst1 hcount1 hpre
                    (fun b hb => hb) (by rw [hres]) with
                  hcase | hcase
                · exact Bool.noConfusion hcase
                · exact hcase

theorem mem_of_lookup {β : Type} :
    ∀ (l : List (String × β)) (k : String) (v : β),
      l.lookup k = some v → (k, v) ∈ l := by
  intro l
  induction l with
  | nil => intro k v h; cases h
  | cons p rest ih =>
      intro k v h
      obtain ⟨a, w⟩ := p
      rw [List.lookup] at h
      cases hk : (k == a) with
      | true =>
          rw [hk] at h
          cases h
          rw [show k = a from beq_iff_eq.mp hk]
          exact List.mem_cons_self _ _
      | false =>
          rw [hk] at h
          exact List.mem_cons_of_mem _ (ih k v h)

/-- Only keys have outgoing edges. -/
theorem edge_source_mem (g : List (String × List String)) (x y : String)
    (h : GEdge g x y) : x ∈ dictKeys g := by
  rw [GEdge, nbrs] at h
  cases hl : g.reverse.lookup x with
  | none => rw [hl] at h; simp at h
  | some l =>
      have hmem := mem_of_lookup g.reverse x l hl
      rw [mem_dictKeys]
      have : (x, l) ∈ g := List.mem_reverse.mp hmem
      exact List.mem_map.mpr ⟨(x, l), this, rfl⟩

/-- The outer loop, `True` direction: a reported cycle is a real cycle. -/
theorem dfsAll_true (g : List (String × List String))
    (hclosed : ClosedGraph g) :
    ∀ (ks : List String) (st : DfsState), St3 st →
      (∀ k ∈ ks, k ∈ dictKeys g) → (∀ m, st m ≠ 1) →
      dfsAll g ks st = true → HasCycle g := by
  intro ks
  induction ks with
  | nil => intro st _ _ _ h; exact Bool.noConfusion h
  | cons k ks ih =>
      intro st h3 hks hno1 htrue
      rw [dfsAll] at htrue
      by_cases hk0 : st k = 0
      · rw [if_pos hk0] at htrue
        cases hres : dfs g (g.length + 1) st k with
        | mk flag st' =>
            rw [hres] at htrue
            cases flag
            · have hfalse : (dfs g (g.length + 1) st k).1 = false := by
                rw [hres]
              obtain ⟨-, hiff, -⟩ := dfs_false g hclosed (g.length + 1)
                st k h3 (hks k (List.mem_cons_self k ks))
                (count0_lt_fuel g st) hfalse
              rw [hres] at hiff
              dsimp only at hiff
              refine ih st' ?_ (fun c hc => hks c (List.mem_cons_of_mem k hc))
                ?_ htrue
              · have := (dfs_frame g (g.length + 1) st k h3).1
                rw [hres] at this
                exact this
              · intro m hm
                exact hno1 m ((hiff m).mp hm)
            · exact dfs_true g hclosed (g.length + 1) st k h3
                (hks k (List.mem_cons_self k ks)) (count0_lt_fuel g st)
                (fun m hm => absurd hm (hno1 m))
                (fun h => absurd h (hno1 k)) (by rw [hres])
      · rw [if_neg hk0] at htrue
        exact ih st h3 (fun c hc => hks c (List.mem_cons_of_mem k hc))
          hno1 htrue

/-- The outer loop, `False` direction: every scanned key is cycle-safe. -/
theorem dfsAll_false (g : List (String × List String))
    (hclosed : ClosedGraph g) :
    ∀ (ks : List String) (st : DfsState), St3 st →
      (∀ k ∈ ks, k ∈ dictKeys g) → (∀ m, st m ≠ 1) → Safe2 g st →
      dfsAll g ks st = false → ∀ k ∈ ks, SafeFrom g k := by
  intro ks
  induction ks with
  | nil => intro st _ _ _ _ _ k hk; cases hk
  | cons k ks ih =>
      intro st h3 hks hno1 hsafe hfalse
      rw [dfsAll] at hfalse
      by_cases hk0 : st k = 0
      · rw [if_pos hk0] at hfalse
        cases hres : dfs g (g.length + 1) st k with
        | mk flag st' =>
            rw [hres] at hfalse
            cases flag
            · have hfalse' : (dfs g (g.length + 1) st k).1 = false := by
                rw [hres]
              obtain ⟨hk2, hiff, hsafe'⟩ := dfs_false g hclosed
                (g.length + 1) st k h3 (hks k (List.mem_cons_self k ks))
                (count0_lt_fuel g st) hfalse'
              rw [hres] at hk2 hiff hsafe'
              dsimp only at hk2 hiff hsafe'
              have hsafe2 : Safe2 g st' := hsafe' hsafe
              intro c hc
              rcases List.mem_cons.mp hc with rfl | hc'
              · exact hsafe2 c hk2
              · refine ih st' ?_
                  (fun d hd => hks d (List.mem_cons_of_mem k hd))
                  (fun m hm => hno1 m ((hiff m).mp hm)) hsafe2 hfalse
                  c hc'
                have := (dfs_frame g (g.length + 1) st k h3).1
                rw [hres] at this
                exact this
            · exact Bool.noConfusion hfalse
      · rw [if_neg hk0] at hfalse
        intro c hc
        rcases List.mem_cons.mp hc with rfl | hc'
        · have hk2 : st c = 2 := by
            rcases h3 c with h | h | h
            · exact absurd h hk0
            · exact absurd h (hno1 c)
            · exact h
          exact hsafe c hk2
        · exact ih st h3 (fun d hd => hks d (List.mem_cons_of_mem k hd))
            hno1 hsafe hfalse c hc'

/-- The DFS of `_has_circular_dependencies` is a decision procedure for
cycles, on graphs whose dependency references all resolve. -/
theorem dfsAll_iff_hasCycle (g : List (String × List String))
    (hclosed : ClosedGraph g) :
    dfsAll g (dictKeys g) (fun _ => 0) = true ↔ HasCycle g := by
  constructor
  · exact dfsAll_true g hclosed (dictKeys g) (fun _ => 0)
      (fun m => Or.inl rfl) (fun k hk => hk) (fun m => by simp)
  · intro hcyc
    by_contra hfalse
    rw [Bool.not_eq_true] at hfalse
    obtain ⟨x, hx⟩ := hcyc
    have hxkey : x ∈ dictKeys g := by
      rcases Relation.TransGen.head'_iff.mp hx with ⟨b, hxb, -⟩
      exact edge_source_mem g x b hxb
    exact dfsAll_false g hclosed (dictKeys g) (fun _ => 0)
      (fun m => Or.inl rfl) (fun k hk => hk) (fun m => by simp)
      (fun m hm => by cases hm) hfalse x hxkey
      ⟨x, Relation.ReflTransGen.refl, hx⟩

/-- Resolved dependencies make the adjacency dict closed. -/
theorem closed_of_resolved (tasks : List BeeScriptTask)
    (h : ResolvedDeps tasks) : ClosedGraph (taskGraph tasks) := by
  intro x y hxy
  rw [GEdge, nbrs] at hxy
  cases hl : (taskGraph tasks).reverse.lookup x with
  | none => rw [hl] at hxy; simp at hxy
  | some l =>
      rw [hl] at hxy
      simp only [Option.getD_some] at hxy
      have hmem := List.mem_reverse.mp (mem_of_lookup _ x l hl)
      rw [taskGraph] at hmem
      obtain ⟨t, ht, hteq⟩ := List.mem_map.mp hmem
      injection hteq with hid hafter
      rw [← hafter] at hxy
      obtain ⟨u, hu, huid⟩ := h t ht y hxy
      rw [mem_dictKeys]
      exact List.mem_map.mpr
        ⟨(u.id, u.after), List.mem_map.mpr ⟨u, hu, rfl⟩, huid⟩

/-- The cycle check of `_has_circular_dependencies` decides `HasCycle` on
resolving graphs. -/
theorem has_circular_iff (tasks : List BeeScriptTask)
    (h : ResolvedDeps tasks) :
    has_circular_dependencies tasks = true ↔ HasCycle (taskGraph tasks) := by
  rw [has_circular_dependencies]
  exact dfsAll_iff_hasCycle (taskGraph tasks) (closed_of_resolved tasks h)

theorem firstMissingDep_none_iff (tasks : List BeeScriptTask) :
    firstMissingDep tasks = none ↔ ResolvedDeps tasks := by
  rw [firstMissingDep, List.findSome?_eq_none_iff]
  constructor
  · intro h t ht d hd
    have := h t ht
    rw [Option.map_eq_none', List.find?_eq_none] at this
    have hd' := this d hd
    simp only [Bool.not_eq_true', Bool.not_eq_false] at hd'
    obtain ⟨u, hu, huid⟩ := List.any_eq_true.mp hd'
    exact ⟨u, hu, of_decide_eq_true huid⟩
  · intro h t ht
    rw [Option.map_eq_none', List.find?_eq_none]
    intro d hd
    obtain ⟨u, hu, huid⟩ := h t ht d hd
    simp only [Bool.not_eq_true', Bool.not_eq_false]
    exact List.any_eq_true.mpr ⟨u, hu, decide_eq_true huid⟩

theorem validate_task_none_id (t : BeeScriptTask) (ids : List String)
    (h : validate_task t ids = none) : t.id ∉ ids := by
  intro hmem
  rw [validate_task] at h
  by_cases h1 : isBlank t.id = true
  · rw [if_pos h1] at h; cases h
  · rw [if_neg h1, if_pos hmem] at h; cases h

theorem validateTasksLoop_nodup :
    ∀ (l : List BeeScriptTask) (acc : List String),
      validateTasksLoop l acc = none →
      (∀ t ∈ l, t.id ∉ acc) ∧ (l.map fun t => t.id).Nodup := by
  intro l
  induction l with
  | nil => intro acc _; exact ⟨fun t ht => absurd ht (List.not_mem_nil t), List.nodup_nil⟩
  | cons t ts ih =>
      intro acc h
      rw [validateTasksLoop] at h
      cases hv : validate_task t acc with
      | some e => rw [hv] at h; cases h
      | none =>
          rw [hv] at h
          obtain ⟨hacc, hnodup⟩ := ih (acc ++ [t.id]) h
          constructor
          · intro u hu
            rcases List.mem_cons.mp hu with rfl | hu'
            · exact validate_task_none_id u acc hv
            · intro habs
              exact hacc u hu' (List.mem_append_left _ habs)
          · rw [List.map_cons, List.nodup_cons]
            refine ⟨?_, hnodup⟩
            intro habs
            obtain ⟨u, hu, huid⟩ := List.mem_map.mp habs
            exact hacc u hu (List.mem_append_right _ (by
              rw [huid]; exact List.mem_singleton_self _))

theorem validate_true_parts (script : BeeScript)
    (h : (validate script).1 = true) :
    validateTasksLoop script.subtasks [] = none ∧
    validate_dependencies script.subtasks = none := by
  rw [validate] at h
  cases hloop : validateTasksLoop script.subtasks [] with
  | some e => rw [hloop] at h; exact Bool.noConfusion h
  | none =>
      rw [hloop] at h
      cases hdep : validate_dependencies script.subtasks with
      | some e => rw [hdep] at h; exact Bool.noConfusion h
      | none => exact ⟨rfl, rfl⟩

theorem validate_dependencies_none (tasks : List BeeScriptTask)
    (h : validate_dependencies tasks = none) :
    ResolvedDeps tasks ∧ has_circular_dependencies tasks = false := by
  rw [validate_dependencies] at h
  cases hmiss : firstMissingDep tasks with
  | some p => rw [hmiss] at h; cases p; cases h
  | none =>
      rw [hmiss] at h
      refine ⟨(firstMissingDep_none_iff tasks).mp hmiss, ?_⟩
      by_cases hc : has_circular_dependencies tasks = true
      · rw [if_pos hc] at h; cases h
      · rw [Bool.not_eq_true] at hc; exact hc

/-- With unique task ids, the adjacency dict maps each task's id to its
`after` list. -/
theorem lookup_of_nodup {β : Type} :
    ∀ (l : List (String × β)), (l.map Prod.fst).Nodup →
      ∀ (k : String) (v : β), (k, v) ∈ l → l.lookup k = some v := by
  intro l
  induction l with
  | nil => intro _ k v h; cases h
  | cons p rest ih =>
      intro hnodup k v h
      obtain ⟨a, w⟩ := p
      rw [List.map_cons, List.nodup_cons] at hnodup
      rcases List.mem_cons.mp h with heq | hmem
      · cases heq
        rw [List.lookup, beq_self_eq_true]
      · have hka : k ≠ a := by
          rintro rfl
          exact hnodup.1 (List.mem_map.mpr ⟨(k, v), hmem, rfl⟩)
        rw [List.lookup, beq_eq_false_iff_ne.mpr hka]
        exact ih hnodup.2 k v hmem

theorem nbrs_taskGraph (tasks : List BeeScriptTask)
    (hnodup : (tasks.map fun t => t.id).Nodup) (t : BeeScriptTask)
    (ht : t ∈ tasks) : nbrs (taskGraph tasks) t.id = t.after := by
  rw [nbrs]
  have hkeys : ((taskGraph tasks).reverse.map Prod.fst).Nodup := by
    rw [List.map_reverse, List.nodup_reverse, taskGraph, List.map_map]
    exact hnodup
  have hmem : (t.id, t.after) ∈ (taskGraph tasks).reverse :=
    List.mem_reverse.mpr (List.mem_map.mpr ⟨t, ht, rfl⟩)
  rw [lookup_of_nodup _ hkeys t.id t.after hmem]
  rfl

/-! ## Lemmas about `get_execution_order` (Kahn layering) -/

theorem mem_kahnBatch (R : List BeeScriptTask)
    (hnodup : (R.map fun t => t.id).Nodup) (t : BeeScriptTask)
    (ht : t ∈ R) :
    t.id ∈ kahnBatch R ↔
      (t.after.all fun dep => R.all fun u => u.id ≠ dep) = true := by
  rw [kahnBatch]
  constructor
  · intro h
    obtain ⟨u, hu, huid⟩ := List.mem_map.mp h
    obtain ⟨humem, hup⟩ := List.mem_filter.mp hu
    rw [← List.inj_on_of_nodup_map hnodup humem ht huid]
    exact hup
  · intro h
    exact List.mem_map.mpr ⟨t, List.mem_filter.mpr ⟨ht, h⟩, rfl⟩

/-- A stuck Kahn state (no task free of remaining dependencies) yields a
cycle: every remaining task has an edge into the remaining set, and the
set is finite. -/
theorem kahnBatch_stuck_cycle (tasks R : List BeeScriptTask)
    (hnodup : (tasks.map fun t => t.id).Nodup)
    (hsub : ∀ t ∈ R, t ∈ tasks) (hne : R ≠ [])
    (hstuck : kahnBatch R = []) : HasCycle (taskGraph tasks) := by
  classical
  have hstep : ∀ t ∈ R, ∃ u ∈ R, GEdge (taskGraph tasks) t.id u.id := by
    intro t ht
    have hfe : R.filter
        (fun t => t.after.all fun dep => R.all fun u => u.id ≠ dep) = [] :=
      List.map_eq_nil_iff.mp hstuck
    have hnP : ¬((t.after.all fun dep =>
        R.all fun u => u.id ≠ dep) = true) := by
      intro hP
      have hm : t ∈ R.filter
          (fun t => t.after.all fun dep => R.all fun u => u.id ≠ dep) :=
        List.mem_filter.mpr ⟨ht, hP⟩
      rw [hfe] at hm
      exact List.not_mem_nil t hm
    rw [List.all_eq_true] at hnP
    push_neg at hnP
    obtain ⟨d, hd, hnall⟩ := hnP
    rw [Ne, List.all_eq_true] at hnall
    push_neg at hnall
    obtain ⟨u, hu, hud⟩ := hnall
    simp only [ne_eq, decide_eq_true_eq, not_not] at hud
    refine ⟨u, hu, ?_⟩
    show u.id ∈ nbrs (taskGraph tasks) t.id
    rw [nbrs_taskGraph tasks hnodup t (hsub t ht), hud]
    exact hd
  obtain ⟨t0, ht0⟩ := List.exists_mem_of_ne_nil R hne
  let f : {t // t ∈ R} → {t // t ∈ R} := fun tp =>
    ⟨Classical.choose (hstep tp.1 tp.2),
      (Classical.choose_spec (hstep tp.1 tp.2)).1⟩
  have hedge : ∀ tp : {t // t ∈ R},
      GEdge (taskGraph tasks) tp.1.id (f tp).1.id := fun tp =>
    (Classical.choose_spec (hstep tp.1 tp.2)).2
  have hseq : ∀ k : Nat,
      GEdge (taskGraph tasks) ((f^[k] ⟨t0, ht0⟩).1.id)
        ((f^[k + 1] ⟨t0, ht0⟩).1.id) := by
    intro k
    rw [Function.iterate_succ_apply' f k ⟨t0, ht0⟩]
    exact hedge (f^[k] ⟨t0, ht0⟩)
  have hpath : ∀ j i, i < j →
      Relation.TransGen (GEdge (taskGraph tasks))
        ((f^[i] ⟨t0, ht0⟩).1.id) ((f^[j] ⟨t0, ht0⟩).1.id) := by
    intro j
    induction j with
    | zero => intro i hi; exact absurd hi (Nat.not_lt_zero i)
    | succ j ihj =>
        intro i hij
        rcases Nat.lt_succ_iff_lt_or_eq.mp hij with hlt | heq
        · exact Relation.TransGen.tail (ihj i hlt) (hseq j)
        · rw [heq]
          exact Relation.TransGen.single (hseq j)
  have hmaps : ∀ k ∈ Finset.range (R.length + 1),
      ((f^[k] ⟨t0, ht0⟩).1.id) ∈ (R.map fun t => t.id).toFinset := by
    intro k _
    rw [List.mem_toFinset]
    exact List.mem_map.mpr ⟨(f^[k] ⟨t0, ht0⟩).1, (f^[k] ⟨t0, ht0⟩).2, rfl⟩
  have hcard : ((R.map fun t => t.id).toFinset).card <
      (Finset.range (R.length + 1)).card := by
    rw [Finset.card_range]
    refine lt_of_le_of_lt (List.toFinset_card_le _) ?_
    simp
  obtain ⟨i, _, j, _, hij, hfij⟩ :=
    Finset.exists_ne_map_eq_of_card_lt_of_maps_to hcard hmaps
  rcases Nat.lt_or_ge i j with hlt | hge
  · have hcyc := hpath j i hlt
    rw [← hfij] at hcyc
    exact ⟨_, hcyc⟩
  · have hlt : j < i := lt_of_le_of_ne hge (Ne.symm hij)
    have hcyc := hpath i j hlt
    rw [hfij] at hcyc
    exact ⟨_, hcyc⟩

/-- An id present in the flattened batches sits in some batch. -/
theorem mem_getD_of_mem_flatten (bs : List (List String)) (x : String)
    (k : Nat) (h : x ∈ bs.getD k []) : x ∈ bs.flatten := by
  rcases Nat.lt_or_ge k bs.length with hk | hk
  · refine List.mem_flatten.mpr ⟨bs.getD k [], ?_, h⟩
    rw [List.getD_eq_getElem bs [] hk]
    exact List.getElem_mem hk
  · rw [List.getD_eq_default bs [] hk] at h
    exact absurd h (List.not_mem_nil x)

/-- Unfolding of the Kahn loop on a nonempty remaining set. -/
theorem kahnLoop_succ (fuel : Nat) (R : List BeeScriptTask) (hne : R ≠ []) :
    kahnLoop (fuel + 1) R =
      if kahnBatch R = [] then .error "Circular dependency detected"
      else
        match kahnLoop fuel (R.filter fun t => t.id ∉ kahnBatch R) with
        | .ok bs => .ok (kahnBatch R :: bs)
        | .error e => .error e := by
  cases R with
  | nil => exact absurd rfl hne
  | cons r rs => rfl

/-- The Kahn loop on an acyclic, uniquely-keyed remaining set: it
succeeds, its batches partition the remaining ids, and every dependency
still in the remaining set lands in a strictly earlier batch. -/
theorem kahnLoop_ok (tasks : List BeeScriptTask)
    (hnodup : (tasks.map fun t => t.id).Nodup)
    (hnocycle : ¬HasCycle (taskGraph tasks)) :
    ∀ (fuel : Nat) (R : List BeeScriptTask), R.length ≤ fuel →
      (∀ t ∈ R, t ∈ tasks) → (R.map fun t => t.id).Nodup →
      ∃ bs, kahnLoop fuel R = .ok bs ∧
        List.Perm bs.flatten (R.map fun t => t.id) ∧
        (∀ (k : Nat) (t : BeeScriptTask), t ∈ R →
          t.id ∈ bs.getD k [] → ∀ d ∈ t.after,
          d ∈ (R.map fun t => t.id) → ∃ kp, kp < k ∧ d ∈ bs.getD kp []) := by
  intro fuel
  induction fuel with
  | zero =>
      intro R hlen _ _
      have hR : R = [] := List.length_eq_zero.mp (Nat.le_zero.mp hlen)
      subst hR
      exact ⟨[], rfl, List.Perm.refl _,
        fun k t ht => absurd ht (List.not_mem_nil t)⟩
  | succ fuel ih =>
      intro R hlen hsub hnodupR
      by_cases hRnil : R = []
      · subst hRnil
        exact ⟨[], rfl, List.Perm.refl _,
          fun k t ht => absurd ht (List.not_mem_nil t)⟩
      by_cases hstuck : kahnBatch R = []
      · exact absurd (kahnBatch_stuck_cycle tasks R hnodup hsub hRnil hstuck)
          hnocycle
      have hlt : (R.filter fun t => t.id ∉ kahnBatch R).length < R.length := by
        rw [List.length_filter_lt_length_iff_exists]
        obtain ⟨i, hi⟩ := List.exists_mem_of_ne_nil _ hstuck
        rw [kahnBatch] at hi
        obtain ⟨t, htf, hti⟩ := List.mem_map.mp hi
        refine ⟨t, (List.mem_filter.mp htf).1, ?_⟩
        simp only [decide_eq_true_eq, not_not]
        rw [kahnBatch]
        exact List.mem_map.mpr ⟨t, htf, rfl⟩
      obtain ⟨bs, hok, hperm, hdep⟩ :=
        ih (R.filter fun t => t.id ∉ kahnBatch R)
          (Nat.lt_succ_iff.mp (lt_of_lt_of_le hlt hlen))
          (fun t ht => hsub t (List.mem_filter.mp ht).1)
          (List.Nodup.sublist
            (List.Sublist.map _ (List.filter_sublist R)) hnodupR)
      have hQ : (R.filter fun t => t.id ∉ kahnBatch R) =
          R.filter (fun t =>
            !(t.after.all fun dep => R.all fun u => u.id ≠ dep)) := by
        apply List.filter_congr
        intro t ht
        by_cases hP : (t.after.all fun dep => R.all fun u => u.id ≠ dep) = true
        · have hmem := (mem_kahnBatch R hnodupR t ht).mpr hP
          rw [hP]
          simp [hmem]
        · have hb : (t.after.all fun dep => R.all fun u => u.id ≠ dep)
              = false := Bool.eq_false_iff.mpr hP
          have hnm : t.id ∉ kahnBatch R :=
            fun hmem => hP ((mem_kahnBatch R hnodupR t ht).mp hmem)
          rw [hb]
          simp [hnm]
      refine ⟨kahnBatch R :: bs, ?_, ?_, ?_⟩
      · rw [kahnLoop_succ fuel R hRnil, if_neg hstuck, hok]
      · rw [List.flatten_cons]
        refine List.Perm.trans (List.Perm.append_left (kahnBatch R) hperm) ?_
        rw [hQ, kahnBatch, ← List.map_append]
        exact List.Perm.map _ (List.filter_append_perm _ R)
      · intro k t ht hmem d hd hdR
        cases k with
        | zero =>
            rw [List.getD_cons_zero] at hmem
            have hP := (mem_kahnBatch R hnodupR t ht).mp hmem
            rw [List.all_eq_true] at hP
            have hall := hP d hd
            rw [List.all_eq_true] at hall
            obtain ⟨u, hu, hud⟩ := List.mem_map.mp hdR
            have hne := hall u hu
            rw [decide_eq_true_eq] at hne
            exact absurd hud hne
        | succ k =>
            rw [List.getD_cons_succ] at hmem
            have htid : t.id ∈ bs.flatten :=
              mem_getD_of_mem_flatten bs t.id k hmem
            have htidRf : t.id ∈
                ((R.filter fun t => t.id ∉ kahnBatch R).map fun t => t.id) :=
              hperm.mem_iff.mp htid
            obtain ⟨u, hu, hud⟩ := List.mem_map.mp htidRf
            have huR : u ∈ R := (List.mem_filter.mp hu).1
            have hut : u = t := List.inj_on_of_nodup_map hnodupR huR ht hud
            have htRf : t ∈ R.filter fun t => t.id ∉ kahnBatch R := hut ▸ hu
            by_cases hdb : d ∈ kahnBatch R
            · exact ⟨0, Nat.succ_pos k,
                by rw [List.getD_cons_zero]; exact hdb⟩
            · obtain ⟨v, hv, hvd⟩ := List.mem_map.mp hdR
              have hvRf : v ∈ R.filter fun t => t.id ∉ kahnBatch R :=
                List.mem_filter.mpr
                  ⟨hv, decide_eq_true (by rw [hvd]; exact hdb)⟩
              have hdRf : d ∈
                  ((R.filter fun t => t.id ∉ kahnBatch R).map fun t => t.id) :=
                List.mem_map.mpr ⟨v, hvRf, hvd⟩
              obtain ⟨kp, hkp, hkpm⟩ := hdep k t htRf hmem d hd hdRf
              exact ⟨kp + 1, Nat.succ_lt_succ hkp,
                by rw [List.getD_cons_succ]; exact hkpm⟩

/-! ## Claim C6: scheduler batch correctness -/

/-- C6: every script the validator accepts is scheduled: the Kahn loop
succeeds, the flattened batches are a permutation of the task ids (union
is the full id set) without duplicates (each id in exactly one batch), and
every dependency of a task appears in a strictly earlier batch. -/
theorem c6_scheduler_batches (script : BeeScript)
    (hv : (validate script).1 = true) :
    ∃ bs, get_execution_order script = .ok bs ∧
      List.Perm bs.flatten (script.subtasks.map fun t => t.id) ∧
      bs.flatten.Nodup ∧
      (∀ (k : Nat) (t : BeeScriptTask), t ∈ script.subtasks →
        t.id ∈ bs.getD k [] → ∀ d ∈ t.after,
        ∃ kp, kp < k ∧ d ∈ bs.getD kp []) := by
  obtain ⟨hloop, hdeps⟩ := validate_true_parts script hv
  have hnodup : (script.subtasks.map fun t => t.id).Nodup :=
    (validateTasksLoop_nodup script.subtasks [] hloop).2
  obtain ⟨hres, hnc⟩ := validate_dependencies_none script.subtasks hdeps
  have hnocycle : ¬HasCycle (taskGraph script.subtasks) := by
    intro hc
    have hobs := (has_circular_iff script.subtasks hres).mpr hc
    rw [hnc] at hobs
    exact Bool.noConfusion hobs
  obtain ⟨bs, hok, hperm, hdep⟩ :=
    kahnLoop_ok script.subtasks hnodup hnocycle script.subtasks.length
      script.subtasks (le_refl _) (fun t ht => ht) hnodup
  refine ⟨bs, ?_, hperm, hperm.symm.nodup hnodup, ?_⟩
  · rw [get_execution_order, if_pos hv]
    exact hok
  · intro k t ht hmem d hd
    obtain ⟨u, hu, hud⟩ := hres t ht d hd
    exact hdep k t ht hmem d hd (List.mem_map.mpr ⟨u, hu, hud⟩)

theorem c6_scheduler_batches_witness :
    (validate chainScript).1 = true ∧
    (∃ bs, get_execution_order chainScript = .ok bs ∧
      List.Perm bs.flatten (chainScript.subtasks.map fun t => t.id) ∧
      bs.flatten.Nodup ∧
      (∀ (k : Nat) (t : BeeScriptTask), t ∈ chainScript.subtasks →
        t.id ∈ bs.getD k [] → ∀ d ∈ t.after,
        ∃ kp, kp < k ∧ d ∈ bs.getD kp [])) :=
  ⟨rfl, c6_scheduler_batches chainScript rfl⟩

/-! ## Claim C7: cycle-detection soundness and completeness -/

/-- Appending to a string keeps its first character. -/
theorem data_append_head (a b : String) (c : Char) (cs : List Char)
    (ha : a.data = c :: cs) : (a ++ b).data = c :: (cs ++ b.data) := by
  rw [String.data_append, ha]
  rfl

/-- A string whose first character is not an uppercase C differs from the
cycle error message. -/
theorem ne_cycleMsg_of_head (s : String) (c : Char) (cs : List Char)
    (hs : s.data = c :: cs) (hc : ¬c = 'C') :
    ¬s = "Circular dependency detected in task graph" := by
  intro h
  rw [h] at hs
  have hC : ("Circular dependency detected in task graph").data.head?
      = some 'C' := rfl
  rw [hs, List.head?_cons] at hC
  injection hC with hC
  exact hc hC

/-- Every message `_validate_task` can emit starts with T or D, so none is
the cycle error. -/
theorem validate_task_ne_cycleMsg (t : BeeScriptTask) (ids : List String)
    (e : String) (h : validate_task t ids = some e) :
    ¬e = "Circular dependency detected in task graph" := by
  rw [validate_task] at h
  split_ifs at h
  · injection h with h
    subst h
    decide
  · injection h with h
    subst h
    exact ne_cycleMsg_of_head _ 'D' _
      (data_append_head "Duplicate task ID: " t.id 'D'
        "uplicate task ID: ".data rfl) (by decide)
  · injection h with h
    subst h
    exact ne_cycleMsg_of_head _ 'T' _
      (data_append_head _ _ _ _
        (data_append_head "Task " t.id 'T' "ask ".data rfl)) (by decide)
  · injection h with h
    subst h
    exact ne_cycleMsg_of_head _ 'T' _
      (data_append_head _ _ _ _
        (data_append_head "Task " t.id 'T' "ask ".data rfl)) (by decide)
  · injection h with h
    subst h
    exact ne_cycleMsg_of_head _ 'T' _
      (data_append_head _ _ _ _
        (data_append_head "Task " t.id 'T' "ask ".data rfl)) (by decide)
  · injection h with h
    subst h
    exact ne_cycleMsg_of_head _ 'T' _
      (data_append_head _ _ _ _
        (data_append_head "Task " t.id 'T' "ask ".data rfl)) (by decide)
  · injection h with h
    subst h
    exact ne_cycleMsg_of_head _ 'T' _
      (data_append_head _ _ _ _
        (data_append_head "Task " t.id 'T' "ask ".data rfl)) (by decide)

/-- A failing per-task loop hands back some message of `validate_task`. -/
theorem validateTasksLoop_some :
    ∀ (l : List BeeScriptTask) (acc : List String) (e : String),
      validateTasksLoop l acc = some e →
      ∃ t ids, validate_task t ids = some e := by
  intro l
  induction l with
  | nil =>
      intro acc e h
      rw [validateTasksLoop] at h
      exact Option.noConfusion h
  | cons t ts ih =>
      intro acc e h
      rw [validateTasksLoop] at h
      cases hv : validate_task t acc with
      | some e2 =>
          rw [hv] at h
          injection h with h
          exact ⟨t, acc, by rw [hv, h]⟩
      | none =>
          rw [hv] at h
          exact ih _ e h

/-- The three basic checks never contribute the cycle error. -/
theorem cycleMsg_not_mem_base (c1 c2 c3 : Prop)
    [Decidable c1] [Decidable c2] [Decidable c3] :
    "Circular dependency detected in task graph" ∉
      ((if c1 then ["Goal cannot be empty"] else []) ++
       (if c2 then ["Budget must be positive"] else []) ++
       (if c3 then ["At least one subtask is required"] else [])) := by
  intro h
  split_ifs at h <;> revert h <;> decide

/-- The cycle error can only enter the error list through the dependency
check. -/
theorem validate_mem_cycleMsg (script : BeeScript)
    (h : "Circular dependency detected in task graph" ∈
      (validate script).2.1) :
    validate_dependencies script.subtasks =
      some "Circular dependency detected in task graph" := by
  rw [validate] at h
  cases hloop : validateTasksLoop script.subtasks [] with
  | some e =>
      rw [hloop] at h
      dsimp only at h
      rcases List.mem_append.mp h with hb | he
      · exact absurd hb (cycleMsg_not_mem_base _ _ _)
      · rw [List.mem_singleton] at he
        obtain ⟨t, ids, hvt⟩ := validateTasksLoop_some _ _ _ hloop
        exact absurd he.symm (validate_task_ne_cycleMsg t ids e hvt)
  | none =>
      rw [hloop] at h
      dsimp only at h
      cases hdep : validate_dependencies script.subtasks with
      | some e =>
          rw [hdep] at h
          dsimp only at h
          rcases List.mem_append.mp h with hb | he
          · exact absurd hb (cycleMsg_not_mem_base _ _ _)
          · rw [List.mem_singleton] at he
            rw [← he]
      | none =>
          rw [hdep] at h
          dsimp only at h
          by_cases hbud : script.budget_credits < totalEstimatedCost script
          · rw [if_pos hbud] at h
            dsimp only at h
            rcases List.mem_append.mp h with hb | he
            · exact absurd hb (cycleMsg_not_mem_base _ _ _)
            · rw [List.mem_singleton] at he
              have h1 := data_append_head "Estimated cost ("
                (toString (totalEstimatedCost script)) 'E'
                "stimated cost (".data rfl
              have h2 := data_append_head _ ") exceeds budget (" 'E' _ h1
              have h3 := data_append_head _
                (toString script.budget_credits) 'E' _ h2
              have h4 := data_append_head _ ")" 'E' _ h3
              exact absurd he.symm
                (ne_cycleMsg_of_head _ 'E' _ h4 (by decide))
          · rw [if_neg hbud] at h
            dsimp only at h
            exact absurd h (cycleMsg_not_mem_base _ _ _)

/-- C7 (corrected): when the per-task checks pass and every dependency
resolves, the DFS cycle check is sound and complete — a cyclic dependency
relation makes `validate` reject with exactly one cycle error, and an
acyclic relation never produces the cycle error anywhere in the error
list (the acyclic half needs no extra premises).  The original claim fails
without those premises: the per-task loop returns at its first failure
before dependencies are examined, so a cyclic graph can be rejected with
no cycle error at all. -/
theorem c7_cycle_detection (script : BeeScript) :
    (¬HasCycle (taskGraph script.subtasks) →
      "Circular dependency detected in task graph" ∉ (validate script).2.1) ∧
    (validateTasksLoop script.subtasks [] = none →
      ResolvedDeps script.subtasks →
      HasCycle (taskGraph script.subtasks) →
      (validate script).1 = false ∧
      ((validate script).2.1).count
        "Circular dependency detected in task graph" = 1) := by
  constructor
  · intro hnc hmem
    have hdc := validate_mem_cycleMsg script hmem
    rw [validate_dependencies] at hdc
    cases hmiss : firstMissingDep script.subtasks with
    | some p =>
        obtain ⟨tid, dep⟩ := p
        rw [hmiss] at hdc
        dsimp only at hdc
        injection hdc with hdc
        have h1 : ("Task " ++ tid).data = 'T' :: ("ask ".data ++ tid.data) :=
          data_append_head "Task " tid 'T' "ask ".data rfl
        have h2 := data_append_head ("Task " ++ tid)
          ": Unknown dependency '" 'T' _ h1
        have h3 := data_append_head _ dep 'T' _ h2
        have h4 := data_append_head _ "'" 'T' _ h3
        exact ne_cycleMsg_of_head _ 'T' _ h4 (by decide) hdc
    | none =>
        rw [hmiss] at hdc
        dsimp only at hdc
        by_cases hc : has_circular_dependencies script.subtasks = true
        · exact hnc ((has_circular_iff script.subtasks
            ((firstMissingDep_none_iff script.subtasks).mp hmiss)).mp hc)
        · rw [if_neg hc] at hdc
          exact Option.noConfusion hdc
  · intro hloop hres hcyc
    have hmiss : firstMissingDep script.subtasks = none :=
      (firstMissingDep_none_iff script.subtasks).mpr hres
    have hcirc : has_circular_dependencies script.subtasks = true :=
      (has_circular_iff script.subtasks hres).mpr hcyc
    have hdep : validate_dependencies script.subtasks =
        some "Circular dependency detected in task graph" := by
      rw [validate_dependencies, hmiss, hcirc]
      rfl
    have hval : (validate script).2.1 =
        ((if isBlank script.goal then ["Goal cannot be empty"] else []) ++
         (if script.budget_credits ≤ 0 then ["Budget must be positive"]
          else []) ++
         (if script.subtasks = [] then ["At least one subtask is required"]
          else []))
        ++ ["Circular dependency detected in task graph"] := by
      rw [validate, hloop, hdep]
    constructor
    · rw [validate, hloop, hdep]
    · rw [hval, List.count_append,
        List.count_eq_zero.mpr (cycleMsg_not_mem_base _ _ _)]
      decide

/-- C7 counterexample: a self-dependent task with a blank agent — the
dependency relation has a cycle and the validator rejects, yet the error
list has no cycle error, because the per-task loop fails first. -/
theorem c7_cycle_detection_counterexample :
    HasCycle (taskGraph c7BadScript.subtasks) ∧
    (validate c7BadScript).1 = false ∧
    "Circular dependency detected in task graph" ∉
      (validate c7BadScript).2.1 :=
  ⟨⟨"t", Relation.TransGen.single
      (show "t" ∈ nbrs (taskGraph c7BadScript.subtasks) "t" by decide)⟩,
   rfl, by decide⟩

theorem c7_cycle_detection_witness :
    "Circular dependency detected in task graph" ∉
      (validate chainScript).2.1 ∧
    ((validate c7CycScript).1 = false ∧
      ((validate c7CycScript).2.1).count
        "Circular dependency detected in task graph" = 1) :=
  ⟨(c7_cycle_detection chainScript).1 (fun hcyc => absurd
      ((has_circular_iff chainScript.subtasks
        (show ∀ t ∈ chainScript.subtasks, ∀ d ∈ t.after,
          ∃ u ∈ chainScript.subtasks, u.id = d by decide)).mpr hcyc)
      (by decide)),
   (c7_cycle_detection c7CycScript).2 rfl
     (show ∀ t ∈ c7CycScript.subtasks, ∀ d ∈ t.after,
       ∃ u ∈ c7CycScript.subtasks, u.id = d by decide)
     ⟨"t", Relation.TransGen.single
       (show "t" ∈ nbrs (taskGraph c7CycScript.subtasks) "t" by decide)⟩⟩

/-! ## Claim C8 -/

/-- C8 counterexample — two distinct tasks both violate the per-task
agent check, yet `validate` reports a single error, for the first task
only: the task loop returns `False` at the first failing task. -/
theorem c8_error_accumulation_counterexample :
    (validate
        { goal := "g", budget_credits := 100,
          subtasks := [{ id := "t1", agent := "", task := "k" },
                       { id := "t2", agent := "", task := "k" }] }).2.1 =
      ["Task t1: Agent cannot be empty"] ∧
    (validate
        { goal := "g", budget_credits := 100,
          subtasks := [{ id := "t1", agent := "", task := "k" },
                       { id := "t2", agent := "", task := "k" }] }).1 =
      false :=
  ⟨rfl, rfl⟩

/-- C8 amended — the three basic checks (goal / budget / non-empty task
list) accumulate in one pass, but per-task validation short-circuits: with
two agent-less tasks, only the first contributes an error, and `validate`
rejects.  (Non-mutation holds by construction: the embedded `validate` is
a pure function of the script, as in the source, which touches only the
validator's own `errors`/`warnings` lists.) -/
theorem c8_error_accumulation (script : BeeScript)
    (t1 t2 : BeeScriptTask) (rest : List BeeScriptTask)
    (hsub : script.subtasks = t1 :: t2 :: rest)
    (hid : ¬isBlank t1.id = true) (hagent1 : isBlank t1.agent = true)
    (hagent2 : isBlank t2.agent = true) :
    (validate script).2.1 =
      ((if isBlank script.goal then ["Goal cannot be empty"] else []) ++
        (if script.budget_credits ≤ 0 then ["Budget must be positive"]
          else []) ++
        (if script.subtasks = [] then ["At least one subtask is required"]
          else [])) ++
      ["Task " ++ t1.id ++ ": Agent cannot be empty"] ∧
    (validate script).1 = false := by
  have hloop : validateTasksLoop script.subtasks [] =
      some ("Task " ++ t1.id ++ ": Agent cannot be empty") := by
    rw [hsub, validateTasksLoop]
    rw [show validate_task t1 [] =
        some ("Task " ++ t1.id ++ ": Agent cannot be empty") from by
      rw [validate_task, if_neg hid, if_neg (by simp), if_pos hagent1]]
  rw [validate, hloop]
  exact ⟨rfl, rfl⟩

/-- Witness for the amended C8 at the concrete two-task script. -/
theorem c8_error_accumulation_witness :
    (validate
        { goal := "g", budget_credits := 100,
          subtasks := [{ id := "a1", agent := " ", task := "k" },
                       { id := "a2", agent := " ", task := "k" }] }).2.1 =
      ["Task a1: Agent cannot be empty"] := by
  have h := c8_error_accumulation
    { goal := "g", budget_credits := 100,
      subtasks := [{ id := "a1", agent := " ", task := "k" },
                   { id := "a2", agent := " ", task := "k" }] }
    { id := "a1", agent := " ", task := "k" }
    { id := "a2", agent := " ", task := "k" } [] rfl
    (by decide) (by decide) (by decide)
  simpa using h.1

end Indra
